import Mathlib

/-!
Verification of the hydra queue monitor / step-graph builder
(`src/hydra-queue-runner/queue-monitor.cc`).

The C++ code is shallowly embedded: the shared mutable step graph becomes an
association list from derivation paths to entries (an entry is `none` when the
weak pointer in the C++ map is dead, i.e. a stale entry), `std::set`s that are
iterated become insertion-ordered duplicate-free lists, shared `Build` objects
become an association list from build ids to `BuildData` records, and database
writes become an append-only event log.  The recursive functions `createStep`
and the `createBuild` lambda are modelled with an explicit fuel argument; all
theorems are stated about executions that complete (`some` results).
-/

namespace HydraQM

/-- Derivation store paths. -/
abbrev DrvPath := String

/-- Build ids (`BuildID` in the C++ code, an unsigned integer). -/
abbrev BuildID := Nat

/-- Insert into an insertion-ordered set represented as a list
(no-op when the element is already present), as `std::set::insert`. -/
def insertNew {α : Type} [DecidableEq α] (xs : List α) (x : α) : List α :=
  if x ∈ xs then xs else xs ++ [x]

/-- Association-list lookup (first binding wins). -/
def lookupAssoc {κ α : Type} [DecidableEq κ] (xs : List (κ × α)) (k : κ) :
    Option α :=
  (xs.find? (fun e => decide (e.1 = k))).map (fun e => e.2)

/-- Remove every binding of a key from an association list. -/
def eraseAssoc {κ α : Type} [DecidableEq κ] (xs : List (κ × α)) (k : κ) :
    List (κ × α) :=
  xs.filter (fun e => decide (e.1 ≠ k))

/-- Overwrite (or create) the binding for a key, as `map[k] = v`. -/
def setAssoc {κ α : Type} [DecidableEq κ] (xs : List (κ × α)) (k : κ) (v : α) :
    List (κ × α) :=
  (k, v) :: eraseAssoc xs k

/-- Parsed derivation, as produced by `readDerivation` (store gateway):
outputs (name, output path), input derivations, platform, environment. -/
structure Derivation where
  outputs : List (String × DrvPath)
  inputDrvs : List DrvPath
  platform : String
  env : List (String × String)
deriving Repr, DecidableEq, Inhabited

/-- The default-constructed `Derivation` of a freshly allocated `Step`. -/
def emptyDrv : Derivation :=
  { outputs := [], inputDrvs := [], platform := "", env := [] }

/-- `tokenizeString`: whitespace-separated tokens of a string. -/
def tokenizeWS (s : String) : List String :=
  (s.split (fun c => c == ' ' || c == '\t' || c == '\n' || c == '\r')).filter
    (fun t => !(t == ""))

/-- One `Step` object of the step graph (`queue-monitor.cc` mutates it under
`step->state.lock()`).  Jobsets are identified by their `(project, jobset)`
key, which the memoized `createJobset` puts in bijection with the shared
`Jobset` objects.  Priority fields start from the defaults of a
default-constructed `Step::State`; no claim depends on the start values. -/
structure StepData where
  drvPath : DrvPath
  drv : Derivation
  requiredSystemFeatures : List String
  preferLocalBuild : Bool
  deps : List DrvPath
  rdeps : List DrvPath
  builds : List BuildID
  created : Bool
  highestGlobalPriority : Int
  highestLocalPriority : Int
  lowestBuildID : Nat
  jobsets : List (String × String)
deriving Repr, DecidableEq, Inhabited

/-- A freshly allocated `Step` for `drvPath` (`std::make_shared<Step>()`
followed by `step->drvPath = drvPath`); `created` starts out `false`. -/
def freshStep (p : DrvPath) : StepData :=
  { drvPath := p, drv := emptyDrv, requiredSystemFeatures := [],
    preferLocalBuild := false, deps := [], rdeps := [], builds := [],
    created := false, highestGlobalPriority := 0, highestLocalPriority := 0,
    lowestBuildID := 0, jobsets := [] }

/-- One entry of the `steps` map: `some` when the weak pointer is live,
`none` when it is dead (a stale entry awaiting the sweep). -/
abbrev StepEntry := Option StepData

/-- The shared step graph `steps : map<DrvPath, Step::wptr>`. -/
abbrev Graph := List (DrvPath × StepEntry)

/-- Raw map lookup, stale entries included. -/
def lookupEntry (g : Graph) (p : DrvPath) : Option StepEntry :=
  lookupAssoc g p

/-- `steps_->find(drvPath)` followed by `.lock()`: the live step for a path,
if any. -/
def lookupLive (g : Graph) (p : DrvPath) : Option StepData :=
  match lookupEntry g p with
  | some (some d) => some d
  | _ => none

/-- `steps_->erase(drvPath)`. -/
def eraseEntry (g : Graph) (p : DrvPath) : Graph :=
  eraseAssoc g p

/-- `(*steps_)[drvPath] = e`. -/
def setEntry (g : Graph) (p : DrvPath) (e : StepEntry) : Graph :=
  setAssoc g p e

/-- Mutate the live step stored for a path (no-op if absent or stale);
models a field update through the shared `Step::ptr`. -/
def updateLive (g : Graph) (p : DrvPath) (f : StepData → StepData) : Graph :=
  match lookupLive g p with
  | some d => setEntry g p (some (f d))
  | none => g

/-- External collaborators consumed by the monitor: the store gateway
(`isValidPath`, `readDerivation`), the configured local platforms, the
cached-failure table (`checkCachedFailure`), the machines map collapsed to
"some registered machine supports this step" (`supportsStep` disjunction),
the `buildOne` debug option and the clock (`time(0)`). -/
structure Env where
  validPath : DrvPath → Bool
  drvs : DrvPath → Derivation
  localPlatforms : List String
  cachedFailure : DrvPath → Bool
  supported : DrvPath → Bool
  buildOne : Option BuildID
  now : Nat

/-- The state threaded through `State::createStep`: the shared graph, the
per-`createBuild` memo sets `finishedDrvs` and `newSteps`, the shared
`newRunnable` set, and a flag recording whether any `assert` in
`createStep` has failed. -/
structure CS where
  graph : Graph
  finishedDrvs : List DrvPath
  newSteps : List DrvPath
  newRunnable : List DrvPath
  assertFailed : Bool
deriving Repr, DecidableEq, Inhabited

mutual

/-- `State::createStep` (queue-monitor.cc:301-407).  Returns `none` when the
fuel runs out, otherwise the returned `Step::ptr` (`some drvPath` for the
step, `none` for the null pointer meaning "all outputs valid") together with
the updated state.  In the all-outputs-valid branch the C++ function returns
null while the only strong reference to the freshly allocated step (the
local `step`) dies, so the weak map entry goes stale at that return; the
model marks the entry stale there. -/
def createStep (fuel : Nat) (env : Env) (drvPath : DrvPath)
    (referringBuild : Option BuildID) (referringStep : Option DrvPath)
    (s : CS) : Option (Option DrvPath × CS) :=
  match fuel with
  | 0 => none
  | Nat.succ fuel =>
    if drvPath ∈ s.finishedDrvs then some (none, s)
    else
      -- atomic section under the `steps` lock
      let g0 := s.graph
      let g1 := match lookupEntry g0 drvPath with
        | some none => eraseEntry g0 drvPath   -- remove stale entry
        | _ => g0
      let found := lookupLive g0 drvPath
      let d0 := match found with
        | some d => d
        | none => freshStep drvPath
      let isNew := found.isNone
      -- assert(step_->created != isNew)
      let aF := s.assertFailed || (d0.created == isNew)
      let d1 := { d0 with
        builds := match referringBuild with
          | some b => d0.builds ++ [b]
          | none => d0.builds,
        rdeps := match referringStep with
          | some r => d0.rdeps ++ [r]
          | none => d0.rdeps }
      let s1 : CS := { s with graph := setEntry g1 drvPath (some d1),
                              assertFailed := aF }
      if !isNew then some (some drvPath, s1)
      else
        let drv := env.drvs drvPath
        let rsf := match lookupAssoc drv.env "requiredSystemFeatures" with
          | some v => tokenizeWS v
          | none => []
        let plb := (match lookupAssoc drv.env "preferLocalBuild" with
          | some v => v == "1"
          | none => false) && env.localPlatforms.contains drv.platform
        let s2 : CS := { s1 with
          graph := updateLive s1.graph drvPath (fun d =>
            { d with drv := drv, requiredSystemFeatures := rsf,
                     preferLocalBuild := plb }) }
        let valid := drv.outputs.all (fun o => env.validPath o.2)
        if valid then
          -- finishedDrvs.insert(drvPath); return 0 — the local strong
          -- reference was the last one, so the map entry goes stale here
          some (none, { s2 with
            finishedDrvs := insertNew s2.finishedDrvs drvPath,
            graph := setEntry s2.graph drvPath none })
        else
          let s3 : CS := { s2 with newSteps := insertNew s2.newSteps drvPath }
          match createDeps fuel env drv.inputDrvs drvPath s3 with
          | none => none
          | some s4 =>
            match lookupLive s4.graph drvPath with
            | some d =>
              -- assert(!step_->created); step_->created = true
              let aF2 := s4.assertFailed || d.created
              some (some drvPath, { s4 with
                graph := setEntry s4.graph drvPath
                  (some { d with created := true }),
                assertFailed := aF2,
                newRunnable := if d.deps.isEmpty
                  then insertNew s4.newRunnable drvPath
                  else s4.newRunnable })
            | none =>
              -- unreachable: the local strong reference keeps the step live
              some (some drvPath, s4)
termination_by (fuel, 0)
decreasing_by
all_goals simp_wf
all_goals first
| exact Prod.Lex.left _ _ (by omega)
| exact Prod.Lex.right _ (by omega)

/-- The `for (auto & i : step->drv.inputDrvs)` loop of `createStep`
(queue-monitor.cc:388-394): create a step for each input derivation with
this step as the referring step, and attach each non-null result to
`deps`. -/
def createDeps (fuel : Nat) (env : Env) (inputs : List DrvPath)
    (parent : DrvPath) (s : CS) : Option CS :=
  match inputs with
  | [] => some s
  | i :: rest =>
    match createStep fuel env i none (some parent) s with
    | none => none
    | some (dep, s1) =>
      let s2 := match dep with
        | some dp => { s1 with
            graph := updateLive s1.graph parent (fun d =>
              { d with deps := insertNew d.deps dp }) }
        | none => s1
      createDeps fuel env rest parent s2
termination_by (fuel, inputs.length + 1)
decreasing_by
all_goals simp_wf
all_goals first
| exact Prod.Lex.left _ _ (by omega)
| exact Prod.Lex.right _ (by omega)

end

/-- Keys of a graph not yet visited: the decreasing measure of the
dependency traversal. -/
def unvisitedCount (g : Graph) (visited : List DrvPath) : Nat :=
  (g.filter (fun e => decide (e.1 ∉ visited))).length

theorem lookupAssoc_some_mem {κ α : Type} [DecidableEq κ]
    {xs : List (κ × α)} {k : κ} {v : α} (h : lookupAssoc xs k = some v) :
    (k, v) ∈ xs := by
  unfold lookupAssoc at h
  cases hf : xs.find? (fun e => decide (e.1 = k)) with
  | none => rw [hf] at h; exact absurd h (by simp)
  | some e =>
    rw [hf] at h
    have hm := List.mem_of_find?_eq_some hf
    have hp := List.find?_some hf
    simp only [decide_eq_true_eq] at hp
    have h2 : e.2 = v := by simpa using h
    have hkv : (k, v) = e := by
      cases e; cases hp; cases h2; rfl
    rw [hkv]; exact hm

theorem filter_length_le_of_imp {α : Type} (l : List α) (p q : α → Bool)
    (himp : ∀ a, p a = true → q a = true) :
    (l.filter p).length ≤ (l.filter q).length :=
  List.Sublist.length_le (List.monotone_filter_right l himp)

theorem filter_length_lt_of_imp {α : Type} (l : List α) (p q : α → Bool)
    (himp : ∀ a, p a = true → q a = true)
    (a : α) (ha : a ∈ l) (hpa : p a = false) (hqa : q a = true) :
    (l.filter p).length < (l.filter q).length := by
  induction l with
  | nil => simp at ha
  | cons b t ih =>
    rcases List.mem_cons.mp ha with rfl | hat
    · have hle := filter_length_le_of_imp t p q himp
      simp [List.filter_cons, hpa, hqa]
      omega
    · have hlt := ih hat
      by_cases hqb : q b = true
      · by_cases hpb : p b = true
        · simp [List.filter_cons, hpb, hqb]
          omega
        · simp only [Bool.not_eq_true] at hpb
          simp [List.filter_cons, hpb, hqb]
          omega
      · simp only [Bool.not_eq_true] at hqb
        have hpb : p b = false := by
          cases hpb2 : p b
          · rfl
          · exact absurd (himp b hpb2) (by simp [hqb])
        simp [List.filter_cons, hpb, hqb]
        omega

theorem unvisitedCount_cons_le (g : Graph) (p : DrvPath)
    (visited : List DrvPath) :
    unvisitedCount g (p :: visited) ≤ unvisitedCount g visited := by
  apply filter_length_le_of_imp
  intro a ha
  simp only [decide_eq_true_eq, List.mem_cons, not_or] at ha ⊢
  exact ha.2

theorem unvisitedCount_cons_lt (g : Graph) (p : DrvPath)
    (visited : List DrvPath) (hk : ∃ e ∈ g, e.1 = p) (hnv : p ∉ visited) :
    unvisitedCount g (p :: visited) < unvisitedCount g visited := by
  obtain ⟨e, he, hek⟩ := hk
  apply filter_length_lt_of_imp _ _ _
    (fun a ha => by
      simp only [decide_eq_true_eq, List.mem_cons, not_or] at ha ⊢
      exact ha.2)
    e he
  · simp [hek]
  · simp only [hek, decide_eq_true_eq]
    exact hnv

theorem lookupLive_key_mem {g : Graph} {p : DrvPath} {d : StepData}
    (h : lookupLive g p = some d) : ∃ e ∈ g, e.1 = p := by
  unfold lookupLive lookupEntry at h
  cases hl : lookupAssoc g p with
  | none => rw [hl] at h; simp at h
  | some ent =>
    exact ⟨(p, ent), lookupAssoc_some_mem hl, rfl⟩

/-- Modelled from the spec: `visitDependencies` (declared in `state.hh`,
defined outside `src/`).  Per §4.E of the spec it traverses, from a start
step, all steps reachable dependency-wise, tolerating already-visited steps
by maintaining a visited set per call.  Worklist traversal over the graph;
returns the visited set. -/
def visitDeps (g : Graph) (ws : List DrvPath) (visited : List DrvPath) :
    List DrvPath :=
  match ws with
  | [] => visited
  | p :: rest =>
    if hv : p ∈ visited then visitDeps g rest visited
    else
      match hlk : lookupLive g p with
      | some d => visitDeps g (d.deps ++ rest) (p :: visited)
      | none => visitDeps g rest (p :: visited)
termination_by (unvisitedCount g visited, ws.length)
decreasing_by
all_goals simp_wf
all_goals first
| exact Prod.Lex.right _ (by omega)
| exact Prod.Lex.left _ _
    (unvisitedCount_cons_lt _ _ _ (lookupLive_key_mem (by assumption))
      (by assumption))
| (rcases Nat.lt_or_eq_of_le (unvisitedCount_cons_le _ _ _) with h | h
   exacts [Prod.Lex.left _ _ h,
     by rw [h]; exact Prod.Lex.right _ (by omega)])

/-- `BuildStatus` values used by the monitor (`bs…` in the C++ code). -/
inductive BuildStatus where
  | bsSuccess
  | bsFailed
  | bsDepFailed
  | bsAborted
  | bsUnsupported
deriving Repr, DecidableEq, Inhabited

/-- `BuildStepStatus` values used by the monitor (`bss…`). -/
inductive BuildStepStatus where
  | bssFailed
  | bssUnsupported
deriving Repr, DecidableEq, Inhabited

/-- An in-memory `Build` object (one row of the queue, as read by
`getQueuedBuilds`).  The shared `Jobset` object is identified by its
`(project, jobset)` key (the memoized `createJobset` makes this a
bijection). -/
structure BuildData where
  id : BuildID
  drvPath : DrvPath
  projectName : String
  jobsetName : String
  jobName : String
  maxSilentTime : Int
  buildTimeout : Int
  timestamp : Nat
  globalPriority : Int
  localPriority : Int
  jobset : String × String
  finishedInDB : Bool
  toplevel : Option DrvPath
deriving Repr, DecidableEq, Inhabited

/-- The per-step update of `Build::propagatePriorities`
(queue-monitor.cc:260-266), under the step's lock: raise
`highestGlobalPriority` and `highestLocalPriority` to the build's
priorities, lower `lowestBuildID` to the build's id, and insert the
build's jobset. -/
def prioUpdate (b : BuildData) (d : StepData) : StepData :=
  { d with
    highestGlobalPriority := max d.highestGlobalPriority b.globalPriority,
    highestLocalPriority := max d.highestLocalPriority b.localPriority,
    lowestBuildID := min d.lowestBuildID b.id,
    jobsets := insertNew d.jobsets b.jobset }

/-- `Build::propagatePriorities` (queue-monitor.cc:254-267): apply
`prioUpdate` to every step reachable dependency-wise from the build's
top-level step.  The update changes no `deps` field, so collecting the
visited set first and then folding the update is equivalent to updating
during the traversal. -/
def propagatePriorities (b : BuildData) (g : Graph) : Graph :=
  match b.toplevel with
  | none => g
  | some top =>
    (visitDeps g [top] []).foldl (fun g' p => updateLive g' p (prioUpdate b)) g

/-- One `update Builds set finished = 1, busy = 0, …` statement:
the GC-abort form sets `errorMsg`, the bad-step form sets
`isCachedBuild`. -/
structure BuildUpdate where
  id : BuildID
  buildStatus : BuildStatus
  startTime : Nat
  stopTime : Nat
  errorMsg : Option String
  isCachedBuild : Option Nat
deriving Repr, DecidableEq, Inhabited

/-- One `createBuildStep(txn, 0, build, r, "", buildStepStatus)` row. -/
structure BuildStepRow where
  buildId : BuildID
  drvPath : DrvPath
  status : BuildStepStatus
deriving Repr, DecidableEq, Inhabited

/-- The database writes performed by the loader, as an append-only log. -/
inductive DBEvent where
  | updateBuild (u : BuildUpdate)
  | buildStepRow (r : BuildStepRow)
  | markSucceeded (id : BuildID) (cached : Bool) (startTime stopTime : Nat)
deriving Repr, DecidableEq, Inhabited

/-- The state threaded through `getQueuedBuilds` and the `createBuild`
lambda.  `buildObjs` is the canonical store of shared `Build` objects
(mutations through any `Build::ptr` go through it); `newBuildsByID` and
`registry` (`State::builds`) hold ids referring into it. -/
structure LState where
  graph : Graph
  newRunnable : List DrvPath
  assertFailed : Bool
  buildObjs : List (BuildID × BuildData)
  newIDs : List BuildID
  newBuildsByID : List BuildID
  newBuildsByPath : List (DrvPath × BuildID)
  registry : List BuildID
  db : List DBEvent
  nrAdded : Nat
  nrBuildsDone : Nat
  nrBuildsRead : Nat
  lastBuildId : Nat
  published : List DrvPath
deriving Repr, DecidableEq, Inhabited

/-- Read a shared `Build` object through its id. -/
def getBuildD (objs : List (BuildID × BuildData)) (bid : BuildID) :
    BuildData :=
  (lookupAssoc objs bid).getD default

/-- An explicitly empty loader state. -/
def emptyL : LState :=
  { graph := [], newRunnable := [], assertFailed := false, buildObjs := [],
    newIDs := [], newBuildsByID := [], newBuildsByPath := [], registry := [],
    db := [], nrAdded := 0, nrBuildsDone := 0, nrBuildsRead := 0,
    lastBuildId := 0, published := [] }

/-- How `createBuild` classifies one new step `r` (queue-monitor.cc:163-186):
a cached failure gives `Failed` (`DepFailed` when `r` is not the build's
top-level step) with step status `Failed`; otherwise, when no registered
machine supports the step, `Unsupported`; otherwise the step is fine. -/
def classifyStep (env : Env) (topStep r : DrvPath) :
    Option (BuildStatus × BuildStepStatus) :=
  if env.cachedFailure r then
    some (if r = topStep then BuildStatus.bsFailed else BuildStatus.bsDepFailed,
          BuildStepStatus.bssFailed)
  else if !(env.supported r) then
    some (BuildStatus.bsUnsupported, BuildStepStatus.bssUnsupported)
  else none

/-- The `for (auto & r : newSteps)` classification loop: the first step with
a non-success classification, if any (the loop `break`s at it). -/
def badStepScan (env : Env) (topStep : DrvPath) (steps : List DrvPath) :
    Option (DrvPath × BuildStatus × BuildStepStatus) :=
  match steps with
  | [] => none
  | r :: rest =>
    match classifyStep env topStep r with
    | some (st, sst) => some (r, st, sst)
    | none => badStepScan env topStep rest

/-- How one invocation of the `createBuild` lambda ended. -/
inductive Outcome where
  /-- the derivation was GC'ed; `wrote` records whether the build was
  finalized in the database (i.e. `finishedInDB` was still false) -/
  | gcAborted (wrote : Bool)
  /-- `createStep` returned null: finished, cached build -/
  | cachedSuccess
  /-- some new step had a cached failure or no supporting machine -/
  | badStep (r : DrvPath) (status : BuildStatus) (wrote : Bool)
  /-- the build was admitted with the given top-level step -/
  | admitted (top : DrvPath)
deriving Repr, DecidableEq, Inhabited

mutual

/-- The `createBuild` lambda of `State::getQueuedBuilds`
(queue-monitor.cc:104-224), keyed by build id.  Returns `none` on fuel
exhaustion (or when the id refers to no object, which callers never do),
otherwise the outcome and the updated state. -/
def createBuild (fuel : Nat) (env : Env) (bid : BuildID) (s : LState) :
    Option (Outcome × LState) :=
  match fuel with
  | 0 => none
  | Nat.succ fuel =>
    match lookupAssoc s.buildObjs bid with
    | none => none
    | some b =>
      let s := { s with nrAdded := s.nrAdded + 1,
                        newBuildsByID := s.newBuildsByID.filter
                          (fun i => decide (i ≠ bid)) }
      if !(env.validPath b.drvPath) then
        -- derivation has been GC'ed prematurely
        if !b.finishedInDB then
          some (Outcome.gcAborted true, { s with
            db := s.db ++ [DBEvent.updateBuild
              { id := bid, buildStatus := BuildStatus.bsAborted,
                startTime := env.now, stopTime := env.now,
                errorMsg := some "derivation was garbage-collected prior to build",
                isCachedBuild := none }],
            buildObjs := setAssoc s.buildObjs bid
              { b with finishedInDB := true },
            nrBuildsDone := s.nrBuildsDone + 1 })
        else some (Outcome.gcAborted false, s)
      else
        let cs0 : CS := { graph := s.graph, finishedDrvs := [],
                          newSteps := [], newRunnable := s.newRunnable,
                          assertFailed := s.assertFailed }
        match createStep fuel env b.drvPath (some bid) none cs0 with
        | none => none
        | some (stepOpt, cs1) =>
          let s1 := { s with graph := cs1.graph,
                             newRunnable := cs1.newRunnable,
                             assertFailed := cs1.assertFailed }
          -- some of the new steps may be the top level of builds we
          -- haven't processed yet, so do them now
          match processNewBuilds fuel env cs1.newSteps s1 with
          | none => none
          | some s2 =>
            match stepOpt with
            | none =>
              -- all outputs valid: finished, cached build
              let b2 := getBuildD s2.buildObjs bid
              some (Outcome.cachedSuccess, { s2 with
                db := s2.db ++ [DBEvent.markSucceeded bid true env.now env.now],
                buildObjs := setAssoc s2.buildObjs bid
                  { b2 with finishedInDB := true } })
            | some topStep =>
              match badStepScan env topStep cs1.newSteps with
              | some (r, st, sst) =>
                let b2 := getBuildD s2.buildObjs bid
                if !b2.finishedInDB then
                  some (Outcome.badStep r st true, { s2 with
                    db := s2.db ++
                      [DBEvent.buildStepRow
                        { buildId := bid, drvPath := r, status := sst },
                       DBEvent.updateBuild
                        { id := bid, buildStatus := st,
                          startTime := env.now, stopTime := env.now,
                          errorMsg := none,
                          isCachedBuild := some
                            (if st ≠ BuildStatus.bsUnsupported then 1 else 0) }],
                    buildObjs := setAssoc s2.buildObjs bid
                      { b2 with finishedInDB := true },
                    nrBuildsDone := s2.nrBuildsDone + 1 })
                else some (Outcome.badStep r st false, s2)
              | none =>
                -- admit the build and propagate priorities
                let b2 := getBuildD s2.buildObjs bid
                let b3 := { b2 with toplevel := some topStep }
                let s3 := { s2 with
                  registry := if !b2.finishedInDB
                    then insertNew s2.registry bid
                    else s2.registry,
                  buildObjs := setAssoc s2.buildObjs bid b3 }
                some (Outcome.admitted topStep, { s3 with
                  graph := propagatePriorities b3 s3.graph })
termination_by (fuel, 0)
decreasing_by
all_goals simp_wf
all_goals first
| exact Prod.Lex.left _ _ (by omega)
| exact Prod.Lex.right _ (by omega)

/-- The `for (auto & r : newSteps)` loop of `createBuild`
(queue-monitor.cc:135-141): for each new step whose derivation path is the
top level of another yet-unprocessed queued build, load that build first. -/
def processNewBuilds (fuel : Nat) (env : Env) (stepPaths : List DrvPath)
    (s : LState) : Option LState :=
  match stepPaths with
  | [] => some s
  | r :: rest =>
    match s.newBuildsByPath.find? (fun e => decide (e.1 = r)) with
    | none => processNewBuilds fuel env rest s
    | some e =>
      if e.2 ∈ s.newBuildsByID then
        match createBuild fuel env e.2 s with
        | none => none
        | some (_, s1) => processNewBuilds fuel env rest s1
      else processNewBuilds fuel env rest s
termination_by (fuel, stepPaths.length + 1)
decreasing_by
all_goals simp_wf
all_goals first
| exact Prod.Lex.left _ _ (by omega)
| exact Prod.Lex.right _ (by omega)

end

/-- One iteration of the registry loop of `State::processQueueChange`
(queue-monitor.cc:283-297): a registered build absent from the snapshot of
unfinished builds is discarded; one whose snapshot `globalPriority` is
higher gets the new priority and its priorities re-propagated. -/
def qcStep (currentIds : List (BuildID × Int)) (st : LState) (bid : BuildID) :
    LState :=
  match lookupAssoc currentIds bid with
  | none =>
    { st with registry := st.registry.filter (fun i => decide (i ≠ bid)) }
  | some snap =>
    let b := getBuildD st.buildObjs bid
    if b.globalPriority < snap then
      let b1 := { b with globalPriority := snap }
      { st with buildObjs := setAssoc st.buildObjs bid b1,
                graph := propagatePriorities b1 st.graph }
    else st

/-- `State::processQueueChange` (queue-monitor.cc:270-298), applied to a
snapshot `currentIds` of `(id, globalPriority)` for all unfinished builds:
iterate over the registered builds (the keys present at entry) and apply
`qcStep` to each. -/
def processQueueChange (currentIds : List (BuildID × Int)) (s : LState) :
    LState :=
  s.registry.foldl (qcStep currentIds) s

/-- One row of the `select … from Builds where id > $1 and finished = 0`
snapshot read by `getQueuedBuilds`. -/
structure BuildRow where
  id : BuildID
  project : String
  jobset : String
  job : String
  drvPath : DrvPath
  maxsilent : Int
  timeout : Int
  timestamp : Nat
  globalPriority : Int
  priority : Int
deriving Repr, DecidableEq, Inhabited

/-- The body of the row loop of `getQueuedBuilds` (queue-monitor.cc:74-97):
skip rows filtered out by `buildOne`, advance the `lastBuildId` watermark,
skip builds already registered, and otherwise materialize the `Build`
object into `newIDs` / `newBuildsByID` / `newBuildsByPath`. -/
def phase1Row (env : Env) (s : LState) (row : BuildRow) : LState :=
  let skip : Bool := match env.buildOne with
    | some b1 => decide (row.id ≠ b1)
    | none => false
  if skip then s
  else
    let s := if row.id > s.lastBuildId
      then { s with lastBuildId := row.id } else s
    if row.id ∈ s.registry then s
    else
      let b : BuildData :=
        { id := row.id, drvPath := row.drvPath,
          projectName := row.project, jobsetName := row.jobset,
          jobName := row.job, maxSilentTime := row.maxsilent,
          buildTimeout := row.timeout, timestamp := row.timestamp,
          globalPriority := row.globalPriority,
          localPriority := row.priority,
          jobset := (row.project, row.jobset),
          finishedInDB := false, toplevel := none }
      { s with buildObjs := setAssoc s.buildObjs row.id b,
               newIDs := s.newIDs ++ [row.id],
               newBuildsByID := insertNew s.newBuildsByID row.id,
               newBuildsByPath := s.newBuildsByPath ++ [(row.drvPath, row.id)] }

/-- The read transaction of `getQueuedBuilds`: fold the snapshot rows after
resetting the pass-local structures. -/
def phase1 (env : Env) (rows : List BuildRow) (s : LState) : LState :=
  rows.foldl (phase1Row env)
    { s with newIDs := [], newBuildsByID := [], newBuildsByPath := [] }

/-- The outer loop of `getQueuedBuilds` (queue-monitor.cc:229-250): for each
new id still unprocessed, clear `newRunnable` and `nrAdded`, run
`createBuild`, publish the accumulated runnable steps (`makeRunnable`) and
add `nrAdded` to `nrBuildsRead`. -/
def runPass (fuel : Nat) (env : Env) (ids : List BuildID) (s : LState) :
    Option LState :=
  match ids with
  | [] => some s
  | id :: rest =>
    if id ∈ s.newBuildsByID then
      match createBuild fuel env id
        { s with newRunnable := [], nrAdded := 0 } with
      | none => none
      | some (_, s1) =>
        runPass fuel env rest
          { s1 with published := s1.published ++ s1.newRunnable,
                    nrBuildsRead := s1.nrBuildsRead + s1.nrAdded }
    else runPass fuel env rest s

/-- `State::getQueuedBuilds` (queue-monitor.cc:56-251) for one snapshot of
queue rows: materialize the new builds, then load each. -/
def getQueuedBuilds (fuel : Nat) (env : Env) (rows : List BuildRow)
    (s : LState) : Option LState :=
  let s1 := phase1 env rows s
  runPass fuel env s1.newIDs s1

/-- The number of builds the loader will process in a pass over `rows`:
the snapshot rows that survive the `buildOne` filter and are not already
registered. -/
def newBuildCount (env : Env) (rows : List BuildRow) (s : LState) : Nat :=
  (phase1 env rows s).newBuildsByID.length

/-! ## Basic lemmas about the association-list operations -/

theorem option_eq_some_getD {α : Type} [Inhabited α] (x : Option α)
    (h : x.isSome = true) : x = some (x.getD default) := by
  cases x with
  | none => simp at h
  | some v => rfl

theorem lookupAssoc_cons {κ α : Type} [DecidableEq κ]
    (e : κ × α) (xs : List (κ × α)) (k : κ) :
    lookupAssoc (e :: xs) k =
      if e.1 = k then some e.2 else lookupAssoc xs k := by
  by_cases h : e.1 = k <;> simp [lookupAssoc, List.find?, h]

theorem eraseAssoc_cons {κ α : Type} [DecidableEq κ]
    (e : κ × α) (xs : List (κ × α)) (k : κ) :
    eraseAssoc (e :: xs) k =
      if e.1 = k then eraseAssoc xs k else e :: eraseAssoc xs k := by
  by_cases h : e.1 = k <;> simp [eraseAssoc, List.filter_cons, h]

theorem lookupAssoc_eraseAssoc_same {κ α : Type} [DecidableEq κ]
    (xs : List (κ × α)) (k : κ) :
    lookupAssoc (eraseAssoc xs k) k = none := by
  induction xs with
  | nil => rfl
  | cons e xs ih =>
    by_cases h : e.1 = k
    · rw [eraseAssoc_cons, if_pos h]; exact ih
    · rw [eraseAssoc_cons, if_neg h, lookupAssoc_cons, if_neg h]; exact ih

theorem lookupAssoc_eraseAssoc_other {κ α : Type} [DecidableEq κ]
    (xs : List (κ × α)) (k k' : κ) (hne : k' ≠ k) :
    lookupAssoc (eraseAssoc xs k) k' = lookupAssoc xs k' := by
  induction xs with
  | nil => rfl
  | cons e xs ih =>
    by_cases h : e.1 = k
    · have h2 : ¬ e.1 = k' := by rw [h]; exact fun hh => hne hh.symm
      rw [eraseAssoc_cons, if_pos h, lookupAssoc_cons, if_neg h2]; exact ih
    · by_cases h2 : e.1 = k'
      · rw [eraseAssoc_cons, if_neg h, lookupAssoc_cons, if_pos h2,
            lookupAssoc_cons, if_pos h2]
      · rw [eraseAssoc_cons, if_neg h, lookupAssoc_cons, if_neg h2,
            lookupAssoc_cons, if_neg h2]
        exact ih

theorem lookupAssoc_setAssoc_same {κ α : Type} [DecidableEq κ]
    (xs : List (κ × α)) (k : κ) (v : α) :
    lookupAssoc (setAssoc xs k v) k = some v := by
  simp [setAssoc, lookupAssoc_cons]

theorem lookupAssoc_setAssoc_other {κ α : Type} [DecidableEq κ]
    (xs : List (κ × α)) (k k' : κ) (v : α) (hne : k' ≠ k) :
    lookupAssoc (setAssoc xs k v) k' = lookupAssoc xs k' := by
  rw [setAssoc, lookupAssoc_cons, if_neg (fun hh => hne hh.symm)]
  exact lookupAssoc_eraseAssoc_other xs k k' hne

theorem mem_insertNew {α : Type} [DecidableEq α] (xs : List α) (x y : α) :
    y ∈ insertNew xs x ↔ y ∈ xs ∨ y = x := by
  unfold insertNew
  by_cases h : x ∈ xs
  · simp only [if_pos h]
    constructor
    · exact Or.inl
    · rintro (hy | rfl)
      · exact hy
      · exact h
  · simp [if_neg h]

theorem self_mem_insertNew {α : Type} [DecidableEq α] (xs : List α) (x : α) :
    x ∈ insertNew xs x := (mem_insertNew xs x x).mpr (Or.inr rfl)

/-! ## Lemmas about graph lookups -/

theorem lookupLive_eq (g : Graph) (p : DrvPath) (d : StepData) :
    lookupLive g p = some d ↔ lookupEntry g p = some (some d) := by
  unfold lookupLive
  cases h : lookupEntry g p with
  | none => simp
  | some e => cases e <;> simp

theorem lookupLive_setEntry_same (g : Graph) (p : DrvPath) (d : StepData) :
    lookupLive (setEntry g p (some d)) p = some d := by
  rw [lookupLive_eq]
  exact lookupAssoc_setAssoc_same g p (some d)

theorem lookupEntry_setEntry_same (g : Graph) (p : DrvPath) (e : StepEntry) :
    lookupEntry (setEntry g p e) p = some e :=
  lookupAssoc_setAssoc_same g p e

theorem lookupEntry_setEntry_other (g : Graph) (p q : DrvPath) (e : StepEntry)
    (hne : q ≠ p) :
    lookupEntry (setEntry g p e) q = lookupEntry g q :=
  lookupAssoc_setAssoc_other g p q e hne

theorem lookupLive_setEntry_other (g : Graph) (p q : DrvPath) (e : StepEntry)
    (hne : q ≠ p) :
    lookupLive (setEntry g p e) q = lookupLive g q := by
  unfold lookupLive
  rw [lookupEntry_setEntry_other g p q e hne]

theorem lookupLive_updateLive_same (g : Graph) (p : DrvPath)
    (f : StepData → StepData) :
    lookupLive (updateLive g p f) p = (lookupLive g p).map f := by
  unfold updateLive
  cases h : lookupLive g p with
  | none => simp [h]
  | some d => simp [lookupLive_setEntry_same]

theorem lookupLive_updateLive_other (g : Graph) (p q : DrvPath)
    (f : StepData → StepData) (hne : q ≠ p) :
    lookupLive (updateLive g p f) q = lookupLive g q := by
  unfold updateLive
  cases h : lookupLive g p with
  | none => rfl
  | some d => exact lookupLive_setEntry_other g p q _ hne

theorem lookupEntry_updateLive_other (g : Graph) (p q : DrvPath)
    (f : StepData → StepData) (hne : q ≠ p) :
    lookupEntry (updateLive g p f) q = lookupEntry g q := by
  unfold updateLive
  cases h : lookupLive g p with
  | none => rfl
  | some d => exact lookupEntry_setEntry_other g p q _ hne

theorem lookupEntry_eraseEntry_other (g : Graph) (p q : DrvPath)
    (hne : q ≠ p) :
    lookupEntry (eraseEntry g p) q = lookupEntry g q :=
  lookupAssoc_eraseAssoc_other g p q hne

theorem lookupLive_eraseEntry_other (g : Graph) (p q : DrvPath)
    (hne : q ≠ p) :
    lookupLive (eraseEntry g p) q = lookupLive g q := by
  unfold lookupLive
  rw [lookupEntry_eraseEntry_other g p q hne]

/-! ## Claim C1: one live Step per derivation path is shared -/

/-- **C1.** When `createStep` is called for a derivation path that already
has a live Step in the graph, it returns that same Step — appending the
referring build to its `builds` list and the referring step to its `rdeps`
under the step's lock — instead of allocating a new one; hence any two
admitted builds sharing a derivation path reference the identical Step,
and both appear in its `builds` list (the earlier builds are preserved,
the new referring build is appended), while every other graph entry is
untouched. -/
theorem createStep_existing_shares (fuel : Nat) (env : Env) (p : DrvPath)
    (b : BuildID) (rs : Option DrvPath) (s : CS) (d : StepData)
    (hfin : p ∉ s.finishedDrvs) (hlive : lookupLive s.graph p = some d) :
    createStep (fuel + 1) env p (some b) rs s =
      some (some p,
        { s with
          graph := setEntry s.graph p (some { d with
            builds := d.builds ++ [b],
            rdeps := match rs with
              | some r => d.rdeps ++ [r]
              | none => d.rdeps }),
          assertFailed := s.assertFailed || (d.created == false) }) ∧
    (∀ s₂, createStep (fuel + 1) env p (some b) rs s = some (some p, s₂) →
      ∃ d₂, lookupLive s₂.graph p = some d₂ ∧
        b ∈ d₂.builds ∧ (∀ x ∈ d.builds, x ∈ d₂.builds) ∧
        (∀ q, q ≠ p → lookupEntry s₂.graph q = lookupEntry s.graph q)) := by
  have he : lookupEntry s.graph p = some (some d) := (lookupLive_eq _ _ _).mp hlive
  have heq : createStep (fuel + 1) env p (some b) rs s =
      some (some p,
        { s with
          graph := setEntry s.graph p (some { d with
            builds := d.builds ++ [b],
            rdeps := match rs with
              | some r => d.rdeps ++ [r]
              | none => d.rdeps }),
          assertFailed := s.assertFailed || (d.created == false) }) := by
    simp only [createStep]
    rw [if_neg hfin]
    simp only [he, hlive, Option.isNone_some, Bool.not_false, if_true]
  refine ⟨heq, ?_⟩
  intro s₂ h2
  rw [heq] at h2
  injection h2 with h3
  injection h3 with h4 h5
  subst h5
  refine ⟨_, lookupLive_setEntry_same _ _ _, ?_, ?_, ?_⟩
  · simp
  · intro x hx; simp [hx]
  · intro q hq
    exact lookupEntry_setEntry_other _ _ _ _ hq

/-- A small concrete environment used by the witnesses. -/
def envW : Env :=
  { validPath := fun _ => true, drvs := fun _ => emptyDrv,
    localPlatforms := [], cachedFailure := fun _ => false,
    supported := fun _ => true, buildOne := none, now := 100 }

/-- A live, created step for the C1 witness, already referenced by build 7. -/
def dW : StepData :=
  { freshStep "/d/x.drv" with created := true, builds := [7] }

/-- A state whose graph already holds `dW` live. -/
def sW : CS :=
  { graph := [("/d/x.drv", some dW)], finishedDrvs := [], newSteps := [],
    newRunnable := [], assertFailed := false }

/-- Witness for C1: calling `createStep` for `"/d/x.drv"` on behalf of
build 9 returns the existing step with 9 appended after 7. -/
theorem createStep_existing_shares_witness :
    ("/d/x.drv" ∉ sW.finishedDrvs) ∧
    lookupLive sW.graph "/d/x.drv" = some dW ∧
    (createStep (0 + 1) envW "/d/x.drv" (some 9) none sW =
      some (some "/d/x.drv",
        { sW with
          graph := setEntry sW.graph "/d/x.drv" (some { dW with
            builds := dW.builds ++ [9],
            rdeps := match (none : Option DrvPath) with
              | some r => dW.rdeps ++ [r]
              | none => dW.rdeps }),
          assertFailed := sW.assertFailed || (dW.created == false) }) ∧
    (∀ s₂, createStep (0 + 1) envW "/d/x.drv" (some 9) none sW =
        some (some "/d/x.drv", s₂) →
      ∃ d₂, lookupLive s₂.graph "/d/x.drv" = some d₂ ∧
        9 ∈ d₂.builds ∧ (∀ x ∈ dW.builds, x ∈ d₂.builds) ∧
        (∀ q, q ≠ "/d/x.drv" →
          lookupEntry s₂.graph q = lookupEntry sW.graph q))) :=
  ⟨by simp [sW], rfl,
   createStep_existing_shares 0 envW "/d/x.drv" 9 none sW dW (by simp [sW]) rfl⟩

/-! ## Claim C6: builds whose derivation was garbage-collected -/

/-- **C6.** A build whose derivation path is no longer a valid store path
and whose `finishedInDB` flag is false is finalized in the database with
`buildStatus = Aborted`, error message `"derivation was garbage-collected
prior to build"` and `startTime = stopTime` (both the current time); its
`finishedInDB` flag is set, `nrBuildsDone` is incremented, and the loader
returns without creating any step (graph unchanged) and without touching
the build registry. -/
theorem createBuild_gcAborted (fuel : Nat) (env : Env) (bid : BuildID)
    (s : LState) (b : BuildData)
    (hb : lookupAssoc s.buildObjs bid = some b)
    (hvalid : env.validPath b.drvPath = false)
    (hfin : b.finishedInDB = false) :
    createBuild (fuel + 1) env bid s =
      some (Outcome.gcAborted true,
        { s with
          nrAdded := s.nrAdded + 1,
          newBuildsByID := s.newBuildsByID.filter (fun i => decide (i ≠ bid)),
          db := s.db ++ [DBEvent.updateBuild
            { id := bid, buildStatus := BuildStatus.bsAborted,
              startTime := env.now, stopTime := env.now,
              errorMsg := some "derivation was garbage-collected prior to build",
              isCachedBuild := none }],
          buildObjs := setAssoc s.buildObjs bid { b with finishedInDB := true },
          nrBuildsDone := s.nrBuildsDone + 1 }) ∧
    (∀ o s₂, createBuild (fuel + 1) env bid s = some (o, s₂) →
      o = Outcome.gcAborted true ∧
      s₂.graph = s.graph ∧
      s₂.registry = s.registry ∧
      s₂.nrBuildsDone = s.nrBuildsDone + 1 ∧
      (getBuildD s₂.buildObjs bid).finishedInDB = true) := by
  have heq : createBuild (fuel + 1) env bid s =
      some (Outcome.gcAborted true,
        { s with
          nrAdded := s.nrAdded + 1,
          newBuildsByID := s.newBuildsByID.filter (fun i => decide (i ≠ bid)),
          db := s.db ++ [DBEvent.updateBuild
            { id := bid, buildStatus := BuildStatus.bsAborted,
              startTime := env.now, stopTime := env.now,
              errorMsg := some "derivation was garbage-collected prior to build",
              isCachedBuild := none }],
          buildObjs := setAssoc s.buildObjs bid { b with finishedInDB := true },
          nrBuildsDone := s.nrBuildsDone + 1 }) := by
    simp only [createBuild, hb, hvalid, hfin, Bool.not_false, if_true]
  refine ⟨heq, ?_⟩
  intro o s₂ h2
  rw [heq] at h2
  injection h2 with h3
  injection h3 with h4 h5
  subst h5
  refine ⟨h4.symm, rfl, rfl, rfl, ?_⟩
  simp [getBuildD, lookupAssoc_setAssoc_same]

/-- A queued build whose derivation was GC'ed, for the C6 witness. -/
def bGC : BuildData :=
  { (default : BuildData) with
    id := 3, drvPath := "/d/gone.drv", finishedInDB := false }

/-- Loader state holding `bGC`, for the C6 witness. -/
def sGC : LState := { emptyL with buildObjs := [(3, bGC)] }

/-- Environment in which no store path is valid, for the C6 witness. -/
def envGCW : Env := { envW with validPath := fun _ => false }

/-- Witness for C6 at a concrete GC'ed build. -/
theorem createBuild_gcAborted_witness :
    lookupAssoc sGC.buildObjs 3 = some bGC ∧
    envGCW.validPath bGC.drvPath = false ∧
    bGC.finishedInDB = false ∧
    (createBuild (0 + 1) envGCW 3 sGC =
      some (Outcome.gcAborted true,
        { sGC with
          nrAdded := sGC.nrAdded + 1,
          newBuildsByID := sGC.newBuildsByID.filter (fun i => decide (i ≠ 3)),
          db := sGC.db ++ [DBEvent.updateBuild
            { id := 3, buildStatus := BuildStatus.bsAborted,
              startTime := envGCW.now, stopTime := envGCW.now,
              errorMsg := some "derivation was garbage-collected prior to build",
              isCachedBuild := none }],
          buildObjs := setAssoc sGC.buildObjs 3 { bGC with finishedInDB := true },
          nrBuildsDone := sGC.nrBuildsDone + 1 }) ∧
    (∀ o s₂, createBuild (0 + 1) envGCW 3 sGC = some (o, s₂) →
      o = Outcome.gcAborted true ∧
      s₂.graph = sGC.graph ∧
      s₂.registry = sGC.registry ∧
      s₂.nrBuildsDone = sGC.nrBuildsDone + 1 ∧
      (getBuildD s₂.buildObjs 3).finishedInDB = true)) :=
  ⟨rfl, rfl, rfl, createBuild_gcAborted 0 envGCW 3 sGC bGC rfl rfl rfl⟩

/-! ## Claim C7: priority propagation -/

theorem prioUpdate_bounds (b : BuildData) (d : StepData) :
    b.globalPriority ≤ (prioUpdate b d).highestGlobalPriority ∧
    b.localPriority ≤ (prioUpdate b d).highestLocalPriority ∧
    (prioUpdate b d).lowestBuildID ≤ b.id ∧
    b.jobset ∈ (prioUpdate b d).jobsets :=
  ⟨le_max_right _ _, le_max_right _ _, min_le_right _ _,
   self_mem_insertNew _ _⟩

theorem insertNew_idem {α : Type} [DecidableEq α] (xs : List α) (x : α) :
    insertNew (insertNew xs x) x = insertNew xs x := by
  unfold insertNew
  by_cases h : x ∈ xs
  · simp [h]
  · simp [h]

theorem prioUpdate_idem (b : BuildData) (d : StepData) :
    prioUpdate b (prioUpdate b d) = prioUpdate b d := by
  unfold prioUpdate
  simp only [max_assoc, max_self, min_assoc, min_self, insertNew_idem]

theorem lookupEntry_updateLive_same (g : Graph) (p : DrvPath)
    (f : StepData → StepData) :
    lookupEntry (updateLive g p f) p =
      match lookupEntry g p with
      | some (some d) => some (some (f d))
      | e => e := by
  unfold updateLive lookupLive
  cases h : lookupEntry g p with
  | none => simp [h]
  | some e =>
    cases e with
    | none => simp [h]
    | some d => simp [h, lookupEntry_setEntry_same]

theorem foldl_prioUpdate_lookup (b : BuildData) (L : List DrvPath)
    (g : Graph) (p : DrvPath) :
    lookupEntry (L.foldl (fun g' q => updateLive g' q (prioUpdate b)) g) p =
      if p ∈ L then
        match lookupEntry g p with
        | some (some d) => some (some (prioUpdate b d))
        | e => e
      else lookupEntry g p := by
  induction L generalizing g with
  | nil => simp
  | cons q L ih =>
    simp only [List.foldl_cons]
    rw [ih]
    by_cases hpq : p = q
    · subst hpq
      rw [lookupEntry_updateLive_same]
      by_cases hL : p ∈ L
      · rw [if_pos hL, if_pos (List.mem_cons_self p L)]
        cases he : lookupEntry g p with
        | none => simp
        | some e =>
          cases e with
          | none => simp
          | some d => simp [prioUpdate_idem]
      · rw [if_neg hL, if_pos (List.mem_cons_self p L)]
    · rw [lookupEntry_updateLive_other g q p _ hpq]
      by_cases hL : p ∈ L
      · rw [if_pos hL, if_pos (List.mem_cons.mpr (Or.inr hL))]
      · rw [if_neg hL,
            if_neg (fun hh => (List.mem_cons.mp hh).elim hpq hL)]

theorem foldl_prioUpdate_lookupLive (b : BuildData) (L : List DrvPath)
    (g : Graph) (p : DrvPath) :
    lookupLive (L.foldl (fun g' q => updateLive g' q (prioUpdate b)) g) p =
      if p ∈ L then (lookupLive g p).map (prioUpdate b)
      else lookupLive g p := by
  unfold lookupLive
  rw [foldl_prioUpdate_lookup]
  by_cases hL : p ∈ L
  · rw [if_pos hL, if_pos hL]
    cases he : lookupEntry g p with
    | none => simp
    | some e => cases e <;> simp
  · rw [if_neg hL, if_neg hL]

/-- **C7.** After `propagatePriorities(build)`, every step the traversal
reaches from the build's top-level step satisfies
`highestGlobalPriority ≥ build.globalPriority`,
`highestLocalPriority ≥ build.localPriority`,
`lowestBuildID ≤ build.id`, and contains the build's jobset in its
`jobsets` set; and since each update is a `max`, a `min`, or a set
insertion, every step's scheduling fields move only monotonically while
all its other fields — and all steps the traversal does not reach — are
left unchanged. -/
theorem propagatePriorities_spec (b : BuildData) (g : Graph) (top : DrvPath)
    (htop : b.toplevel = some top) :
    (∀ p ∈ visitDeps g [top] [], ∀ d',
      lookupLive (propagatePriorities b g) p = some d' →
        b.globalPriority ≤ d'.highestGlobalPriority ∧
        b.localPriority ≤ d'.highestLocalPriority ∧
        d'.lowestBuildID ≤ b.id ∧
        b.jobset ∈ d'.jobsets) ∧
    (∀ p d d', lookupLive g p = some d →
      lookupLive (propagatePriorities b g) p = some d' →
        d.highestGlobalPriority ≤ d'.highestGlobalPriority ∧
        d.highestLocalPriority ≤ d'.highestLocalPriority ∧
        d'.lowestBuildID ≤ d.lowestBuildID ∧
        (∀ j ∈ d.jobsets, j ∈ d'.jobsets) ∧
        d'.created = d.created ∧ d'.deps = d.deps ∧ d'.rdeps = d.rdeps ∧
        d'.builds = d.builds ∧ d'.drvPath = d.drvPath) ∧
    (∀ p, p ∉ visitDeps g [top] [] →
      lookupEntry (propagatePriorities b g) p = lookupEntry g p) := by
  have hprop : propagatePriorities b g =
      (visitDeps g [top] []).foldl
        (fun g' q => updateLive g' q (prioUpdate b)) g := by
    unfold propagatePriorities
    rw [htop]
  refine ⟨?_, ?_, ?_⟩
  · intro p hp d' hd'
    rw [hprop, foldl_prioUpdate_lookupLive, if_pos hp] at hd'
    cases hg : lookupLive g p with
    | none => rw [hg] at hd'; exact absurd hd' (by simp)
    | some d =>
      rw [hg] at hd'
      have : prioUpdate b d = d' := by simpa using hd'
      rw [← this]
      exact prioUpdate_bounds b d
  · intro p d d' hd hd'
    rw [hprop, foldl_prioUpdate_lookupLive] at hd'
    by_cases hp : p ∈ visitDeps g [top] []
    · rw [if_pos hp, hd] at hd'
      have : prioUpdate b d = d' := by simpa using hd'
      rw [← this]
      refine ⟨le_max_left _ _, le_max_left _ _, min_le_left _ _, ?_,
        rfl, rfl, rfl, rfl, rfl⟩
      intro j hj
      exact (mem_insertNew _ _ _).mpr (Or.inl hj)
    · rw [if_neg hp, hd] at hd'
      have : d = d' := by simpa using hd'
      rw [← this]
      exact ⟨le_refl _, le_refl _, le_refl _, fun j hj => hj,
        rfl, rfl, rfl, rfl, rfl⟩
  · intro p hp
    rw [hprop, foldl_prioUpdate_lookup, if_neg hp]

/-- A registered build with priorities, for the C7 witness. -/
def bP : BuildData :=
  { (default : BuildData) with
    id := 5, globalPriority := 10, localPriority := 2,
    jobset := ("p", "j"), toplevel := some "/d/a.drv" }

/-- A two-step dependency chain, for the C7 witness. -/
def gP : Graph :=
  [("/d/a.drv",
    some { freshStep "/d/a.drv" with deps := ["/d/b.drv"], created := true }),
   ("/d/b.drv", some { freshStep "/d/b.drv" with created := true })]

/-- Witness for C7 at a concrete build and graph. -/
theorem propagatePriorities_spec_witness :
    bP.toplevel = some "/d/a.drv" ∧
    ((∀ p ∈ visitDeps gP ["/d/a.drv"] [], ∀ d',
      lookupLive (propagatePriorities bP gP) p = some d' →
        bP.globalPriority ≤ d'.highestGlobalPriority ∧
        bP.localPriority ≤ d'.highestLocalPriority ∧
        d'.lowestBuildID ≤ bP.id ∧
        bP.jobset ∈ d'.jobsets) ∧
    (∀ p d d', lookupLive gP p = some d →
      lookupLive (propagatePriorities bP gP) p = some d' →
        d.highestGlobalPriority ≤ d'.highestGlobalPriority ∧
        d.highestLocalPriority ≤ d'.highestLocalPriority ∧
        d'.lowestBuildID ≤ d.lowestBuildID ∧
        (∀ j ∈ d.jobsets, j ∈ d'.jobsets) ∧
        d'.created = d.created ∧ d'.deps = d.deps ∧ d'.rdeps = d.rdeps ∧
        d'.builds = d.builds ∧ d'.drvPath = d.drvPath) ∧
    (∀ p, p ∉ visitDeps gP ["/d/a.drv"] [] →
      lookupEntry (propagatePriorities bP gP) p = lookupEntry gP p)) :=
  ⟨rfl, propagatePriorities_spec bP gP "/d/a.drv" rfl⟩

/-! ## Claim C8: `processQueueChange` is idempotent on an unchanged snapshot -/

/-- A registered build is *stable* for a snapshot when it appears in the
snapshot and its registered priority is at least the snapshot priority:
`qcStep` leaves such a build untouched. -/
def qcGood (ids : List (BuildID × Int)) (st : LState) (bid : BuildID) :
    Prop :=
  ∃ v, lookupAssoc ids bid = some v ∧
    ¬ (getBuildD st.buildObjs bid).globalPriority < v

theorem qcStep_registry_mem (ids : List (BuildID × Int)) (st : LState)
    (a q : BuildID) (hq : q ∈ (qcStep ids st a).registry) :
    q ∈ st.registry := by
  unfold qcStep at hq
  cases h : lookupAssoc ids a with
  | none =>
    simp only [h] at hq
    exact (List.mem_filter.mp hq).1
  | some snap =>
    simp only [h] at hq
    by_cases hlt : (getBuildD st.buildObjs a).globalPriority < snap
    · rw [if_pos hlt] at hq; exact hq
    · rw [if_neg hlt] at hq; exact hq

theorem qcStep_buildObjs_other (ids : List (BuildID × Int)) (st : LState)
    (a q : BuildID) (hne : q ≠ a) :
    lookupAssoc (qcStep ids st a).buildObjs q = lookupAssoc st.buildObjs q := by
  unfold qcStep
  cases h : lookupAssoc ids a with
  | none => simp only [h]
  | some snap =>
    simp only [h]
    by_cases hlt : (getBuildD st.buildObjs a).globalPriority < snap
    · rw [if_pos hlt]
      exact lookupAssoc_setAssoc_other _ _ _ _ hne
    · rw [if_neg hlt]

theorem qc_fold_good (ids : List (BuildID × Int)) (l : List BuildID)
    (st : LState)
    (hst : ∀ bid ∈ st.registry, bid ∉ l → qcGood ids st bid) :
    ∀ bid ∈ (l.foldl (qcStep ids) st).registry,
      qcGood ids (l.foldl (qcStep ids) st) bid := by
  induction l generalizing st with
  | nil =>
    intro bid hbid
    exact hst bid hbid (by simp)
  | cons a l ih =>
    intro bid hbid
    simp only [List.foldl_cons] at hbid ⊢
    refine ih (qcStep ids st a) ?_ bid hbid
    intro q hq hql
    by_cases hqa : q = a
    · subst hqa
      unfold qcStep at hq ⊢
      cases h : lookupAssoc ids q with
      | none =>
        simp only [h] at hq
        have : q ∉ (st.registry.filter (fun i => decide (i ≠ q))) := by
          simp [List.mem_filter]
        exact absurd hq this
      | some snap =>
        simp only [h] at hq ⊢
        by_cases hlt : (getBuildD st.buildObjs q).globalPriority < snap
        · rw [if_pos hlt]
          refine ⟨snap, h, ?_⟩
          simp [getBuildD, lookupAssoc_setAssoc_same]
        · rw [if_neg hlt]
          exact ⟨snap, h, hlt⟩
    · have hqs : q ∈ st.registry := qcStep_registry_mem ids st a q hq
      have hgood := hst q hqs (fun hh => hql (by
        rcases List.mem_cons.mp hh with h1 | h1
        · exact absurd h1 hqa
        · exact h1))
      obtain ⟨v, hv, hle⟩ := hgood
      refine ⟨v, hv, ?_⟩
      rw [getBuildD, qcStep_buildObjs_other ids st a q hqa]
      exact hle

theorem qc_fold_noop (ids : List (BuildID × Int)) (l : List BuildID)
    (st : LState) (h : ∀ bid ∈ l, qcGood ids st bid) :
    l.foldl (qcStep ids) st = st := by
  induction l with
  | nil => rfl
  | cons a l ih =>
    obtain ⟨v, hv, hle⟩ := h a (List.mem_cons_self a l)
    have hstep : qcStep ids st a = st := by
      unfold qcStep
      simp only [hv]
      rw [if_neg hle]
    simp only [List.foldl_cons, hstep]
    exact ih (fun bid hbid => h bid (List.mem_cons.mpr (Or.inr hbid)))

/-- **C8.** `processQueueChange` is idempotent when the database snapshot of
unfinished builds is unchanged: a second run removes no build from the
registry, updates no build's `globalPriority`, and changes no step — it
returns the state unchanged, because after the first run every registered
id is present in the snapshot and no registered priority is strictly below
its snapshot value. -/
theorem processQueueChange_idem (ids : List (BuildID × Int)) (s : LState) :
    processQueueChange ids (processQueueChange ids s) =
      processQueueChange ids s := by
  have hgood := qc_fold_good ids s.registry s
    (fun bid hbid hnot => absurd hbid hnot)
  unfold processQueueChange at hgood ⊢
  exact qc_fold_noop ids _ _ hgood

/-! ## Claim C4: builds with all outputs already valid -/

/-- Behaviour of `createStep` on a fresh path all of whose outputs are
valid: it returns the null pointer after inserting the path into
`finishedDrvs`; the freshly allocated step loses its last strong reference
at the return, so the graph entry for the path is stale, every other entry
is untouched, and `newSteps`, `newRunnable` and the assertion flag are
unchanged. -/
theorem createStep_fresh_valid (fuel : Nat) (env : Env) (p : DrvPath)
    (rb : Option BuildID) (rs : Option DrvPath) (s : CS)
    (hfin : p ∉ s.finishedDrvs) (hlive : lookupLive s.graph p = none)
    (hout : (env.drvs p).outputs.all (fun o => env.validPath o.2) = true) :
    ∀ r cs', createStep (fuel + 1) env p rb rs s = some (r, cs') →
      r = none ∧ cs'.finishedDrvs = insertNew s.finishedDrvs p ∧
      cs'.newSteps = s.newSteps ∧ cs'.newRunnable = s.newRunnable ∧
      cs'.assertFailed = s.assertFailed ∧
      lookupEntry cs'.graph p = some none ∧
      (∀ q, q ≠ p → lookupEntry cs'.graph q = lookupEntry s.graph q) := by
  intro r cs' h
  simp only [createStep] at h
  rw [if_neg hfin] at h
  cases he : lookupEntry s.graph p with
  | none =>
    simp only [he, hlive, Option.isNone_none, Bool.not_true, if_false,
      updateLive, lookupLive_setEntry_same, hout, if_true] at h
    injection h with h1
    injection h1 with h2 h3
    subst h3
    refine ⟨h2.symm, rfl, rfl, rfl, by simp [freshStep],
      lookupEntry_setEntry_same _ _ _, ?_⟩
    intro q hq
    rw [lookupEntry_setEntry_other _ _ _ _ hq,
        lookupEntry_setEntry_other _ _ _ _ hq,
        lookupEntry_setEntry_other _ _ _ _ hq]
  | some ent =>
    cases ent with
    | some d =>
      simp [lookupLive, he] at hlive
    | none =>
      simp only [he, hlive, Option.isNone_none, Bool.not_true, if_false,
        updateLive, lookupLive_setEntry_same, hout, if_true] at h
      injection h with h1
      injection h1 with h2 h3
      subst h3
      refine ⟨h2.symm, rfl, rfl, rfl, by simp [freshStep],
        lookupEntry_setEntry_same _ _ _, ?_⟩
      intro q hq
      rw [lookupEntry_setEntry_other _ _ _ _ hq,
          lookupEntry_setEntry_other _ _ _ _ hq,
          lookupEntry_setEntry_other _ _ _ _ hq,
          lookupEntry_eraseEntry_other _ _ _ hq]

/-- **C4.** A build whose derivation path is valid and all of whose
derivation outputs are already valid in the store (and whose path has no
live step in the graph): `createStep` returns the null pointer after
inserting the path into `finishedDrvs`, and the loader finalizes the build
as a successful cached build via `markSucceededBuild` with `cached = true`,
sets `finishedInDB`, leaves `nrBuildsDone` untouched and returns without
inserting the build into the build registry. -/
theorem createBuild_cachedSuccess (fuel : Nat) (env : Env) (bid : BuildID)
    (s : LState) (b : BuildData) (o : Outcome) (s₂ : LState)
    (hb : lookupAssoc s.buildObjs bid = some b)
    (hvalid : env.validPath b.drvPath = true)
    (hout : (env.drvs b.drvPath).outputs.all (fun o => env.validPath o.2) = true)
    (hlive : lookupLive s.graph b.drvPath = none)
    (hreg : bid ∉ s.registry)
    (hrun : createBuild fuel env bid s = some (o, s₂)) :
    o = Outcome.cachedSuccess ∧
    s₂.db = s.db ++ [DBEvent.markSucceeded bid true env.now env.now] ∧
    (getBuildD s₂.buildObjs bid).finishedInDB = true ∧
    s₂.registry = s.registry ∧ bid ∉ s₂.registry ∧
    s₂.nrBuildsDone = s.nrBuildsDone ∧
    (∀ f r cs', createStep (f + 1) env b.drvPath (some bid) none
        { graph := s.graph, finishedDrvs := [], newSteps := [],
          newRunnable := s.newRunnable, assertFailed := s.assertFailed } =
        some (r, cs') →
      r = none ∧ b.drvPath ∈ cs'.finishedDrvs) := by
  have hcsf : ∀ f r cs', createStep (f + 1) env b.drvPath (some bid) none
      { graph := s.graph, finishedDrvs := [], newSteps := [],
        newRunnable := s.newRunnable, assertFailed := s.assertFailed } =
      some (r, cs') →
      r = none ∧ b.drvPath ∈ cs'.finishedDrvs := by
    intro f r cs' h
    obtain ⟨hr, hfd, -⟩ := createStep_fresh_valid f env b.drvPath
      (some bid) none _ (by simp) hlive hout r cs' h
    refine ⟨hr, ?_⟩
    rw [hfd]
    exact self_mem_insertNew _ _
  cases fuel with
  | zero => simp [createBuild] at hrun
  | succ f =>
    cases f with
    | zero => simp [createBuild, hb, hvalid, createStep] at hrun
    | succ f2 =>
      simp only [createBuild, hb, hvalid, Bool.not_true, Bool.false_eq_true,
        if_false] at hrun
      split at hrun
      · exact absurd hrun (by simp)
      · rename_i stepOpt cs1 hcs
        obtain ⟨hr, hfd, hns, hnr, haf, hep, hoth⟩ :=
          createStep_fresh_valid f2 env b.drvPath (some bid) none _
            (by simp) hlive hout stepOpt cs1 hcs
        subst hr
        rw [hns] at hrun
        simp only [processNewBuilds] at hrun
        injection hrun with h1
        injection h1 with h2 h3
        subst h3
        refine ⟨h2.symm, by simp, ?_, rfl, hreg, rfl, hcsf⟩
        simp [getBuildD, lookupAssoc_setAssoc_same]

/-- Environment for the C4 witness: a derivation with one output, every
store path valid. -/
def envC4 : Env :=
  { envW with drvs := fun _ =>
      { outputs := [("out", "/o/a")], inputDrvs := [], platform := "x",
        env := [] } }

/-- The queued build of the C4 witness. -/
def bC4 : BuildData :=
  { (default : BuildData) with id := 4, drvPath := "/d/a.drv" }

/-- Loader state holding `bC4`, for the C4 witness. -/
def sC4 : LState := { emptyL with buildObjs := [(4, bC4)] }

/-- The result of running the loader on the C4 witness input. -/
def c4res : Outcome × LState := (createBuild 3 envC4 4 sC4).getD default

/-- Witness for C4 at a concrete cached build. -/
theorem createBuild_cachedSuccess_witness :
    lookupAssoc sC4.buildObjs 4 = some bC4 ∧
    envC4.validPath bC4.drvPath = true ∧
    ((envC4.drvs bC4.drvPath).outputs.all fun o => envC4.validPath o.2) = true ∧
    lookupLive sC4.graph bC4.drvPath = none ∧
    (4 ∉ sC4.registry) ∧
    createBuild 3 envC4 4 sC4 = some (c4res.1, c4res.2) ∧
    (c4res.1 = Outcome.cachedSuccess ∧
     c4res.2.db = sC4.db ++
       [DBEvent.markSucceeded 4 true envC4.now envC4.now] ∧
     (getBuildD c4res.2.buildObjs 4).finishedInDB = true ∧
     c4res.2.registry = sC4.registry ∧ 4 ∉ c4res.2.registry ∧
     c4res.2.nrBuildsDone = sC4.nrBuildsDone ∧
     (∀ f r cs', createStep (f + 1) envC4 bC4.drvPath (some 4) none
         { graph := sC4.graph, finishedDrvs := [], newSteps := [],
           newRunnable := sC4.newRunnable,
           assertFailed := sC4.assertFailed } =
         some (r, cs') →
       r = none ∧ bC4.drvPath ∈ cs'.finishedDrvs)) :=
  by
  have hs : (createBuild 3 envC4 4 sC4).isSome = true := by
    simp [createBuild, createStep, createDeps, processNewBuilds, badStepScan,
      classifyStep, sC4, emptyL, bC4, envC4, envW, lookupAssoc, lookupEntry,
      lookupLive, setAssoc, eraseAssoc, setEntry, updateLive, insertNew,
      getBuildD, freshStep, emptyDrv, tokenizeWS]
  have hpair : createBuild 3 envC4 4 sC4 = some (c4res.1, c4res.2) :=
    option_eq_some_getD _ hs
  exact ⟨rfl, rfl, rfl, rfl, by simp [sC4, emptyL], hpair,
    createBuild_cachedSuccess 3 envC4 4 sC4 bC4 c4res.1 c4res.2 rfl rfl rfl
      rfl (by simp [sC4, emptyL]) hpair⟩

/-! ## Claim C10: which loader paths increment `nrBuildsDone` -/

theorem processNewBuilds_empty_byID (fuel : Nat) (env : Env)
    (L : List DrvPath) (s : LState) (h : s.newBuildsByID = []) :
    processNewBuilds fuel env L s = some s := by
  induction L with
  | nil => simp [processNewBuilds]
  | cons r L ih =>
    simp only [processNewBuilds]
    cases hf : s.newBuildsByPath.find? (fun e => decide (e.1 = r)) with
    | none => exact ih
    | some e =>
      simpa [h] using ih

/-- The `nrBuildsDone` increment a loader outcome causes. -/
def doneInc (o : Outcome) : Nat :=
  match o with
  | Outcome.gcAborted true => 1
  | Outcome.badStep _ _ true => 1
  | _ => 0

/-- **C10.** When the loader finalizes a build as a successful cached build
(`createStep` returned null) the `nrBuildsDone` counter is left unchanged,
and likewise on the admission path; among the loader's finalization paths,
`nrBuildsDone` is incremented (by exactly one) only on the
garbage-collected-derivation path and on the bad-step (cached failure /
unsupported) path, in each case only when the build was actually finalized
(`finishedInDB` was still false).  Stated for a loader call that performs
no re-entrant loads (no other unprocessed queued build). -/
theorem createBuild_nrBuildsDone (fuel : Nat) (env : Env) (bid : BuildID)
    (s : LState) (o : Outcome) (s₂ : LState)
    (hsolo : ∀ i ∈ s.newBuildsByID, i = bid)
    (hrun : createBuild fuel env bid s = some (o, s₂)) :
    s₂.nrBuildsDone = s.nrBuildsDone + doneInc o := by
  cases fuel with
  | zero => simp [createBuild] at hrun
  | succ f =>
    simp only [createBuild] at hrun
    cases hb : lookupAssoc s.buildObjs bid with
    | none => rw [hb] at hrun; exact absurd hrun (by simp)
    | some b =>
      rw [hb] at hrun
      have hbyid : s.newBuildsByID.filter (fun i => decide (i ≠ bid)) = [] :=
        List.filter_eq_nil.mpr (fun i hi => by simp [hsolo i hi])
      cases hv : env.validPath b.drvPath with
      | false =>
        simp only [hv, Bool.not_false, if_true] at hrun
        cases hfin : b.finishedInDB with
        | false =>
          simp only [hfin, Bool.not_false, if_true] at hrun
          injection hrun with h1
          injection h1 with h2 h3
          subst h2
          subst h3
          rfl
        | true =>
          simp only [hfin, Bool.not_true, Bool.false_eq_true, if_false] at hrun
          injection hrun with h1
          injection h1 with h2 h3
          subst h2
          subst h3
          rfl
      | true =>
        simp only [hv, Bool.not_true, Bool.false_eq_true, if_false] at hrun
        split at hrun
        · exact absurd hrun (by simp)
        · rename_i stepOpt cs1 hcs
          have hpn := processNewBuilds_empty_byID f env cs1.newSteps
            { s with nrAdded := s.nrAdded + 1,
                     newBuildsByID := s.newBuildsByID.filter
                       (fun i => decide (i ≠ bid)),
                     graph := cs1.graph, newRunnable := cs1.newRunnable,
                     assertFailed := cs1.assertFailed } hbyid
          rw [hpn] at hrun
          cases stepOpt with
          | none =>
            simp only [Option.some.injEq, Prod.mk.injEq] at hrun
            obtain ⟨h2, h3⟩ := hrun
            subst h2
            subst h3
            rfl
          | some topStep =>
            cases hscan : badStepScan env topStep cs1.newSteps with
            | none =>
              simp only [hscan, Option.some.injEq, Prod.mk.injEq] at hrun
              obtain ⟨h2, h3⟩ := hrun
              subst h2
              subst h3
              rfl
            | some rss =>
              obtain ⟨r, stst⟩ := rss
              obtain ⟨st, sst⟩ := stst
              simp only [hscan] at hrun
              cases hfin2 : (getBuildD s.buildObjs bid).finishedInDB with
              | false =>
                simp only [hfin2, Bool.not_false, if_true,
                  Option.some.injEq, Prod.mk.injEq] at hrun
                obtain ⟨h2, h3⟩ := hrun
                subst h2
                subst h3
                rfl
              | true =>
                simp only [hfin2, Bool.not_true, Bool.false_eq_true,
                  if_false, Option.some.injEq, Prod.mk.injEq] at hrun
                obtain ⟨h2, h3⟩ := hrun
                subst h2
                subst h3
                rfl


/-- The result of running the loader on the C10 witness input. -/
def c10res : Outcome × LState := (createBuild 1 envGCW 3 sGC).getD default

/-- Witness for C10 at a concrete GC'ed build: the GC finalization path
increments `nrBuildsDone` by one. -/
theorem createBuild_nrBuildsDone_witness :
    (∀ i ∈ sGC.newBuildsByID, i = 3) ∧
    createBuild 1 envGCW 3 sGC = some (c10res.1, c10res.2) ∧
    c10res.2.nrBuildsDone = sGC.nrBuildsDone + doneInc c10res.1 := by
  have hs : (createBuild 1 envGCW 3 sGC).isSome = true := by
    simp [createBuild, envGCW, envW, sGC, emptyL, bGC, lookupAssoc,
      getBuildD, setAssoc, eraseAssoc]
  have hpair : createBuild 1 envGCW 3 sGC = some (c10res.1, c10res.2) :=
    option_eq_some_getD _ hs
  have hsolo : ∀ i ∈ sGC.newBuildsByID, i = 3 := by
    intro i hi
    simp [sGC, emptyL] at hi
  exact ⟨hsolo, hpair,
    createBuild_nrBuildsDone 1 envGCW 3 sGC c10res.1 c10res.2 hsolo hpair⟩

/-! ## Claim C2: bad-step finalization

A frame property first: a loader call for build `bid` never touches the
`Build` object, registry membership, or `newBuildsByID` membership of a
build `j` that is neither `bid` nor still pending in `newBuildsByID`, and
`nrBuildsDone` never decreases. -/

/-- What a loader invocation for some other build leaves untouched
(and that the database log only grows). -/
def buildFrame (s s' : LState) (j : BuildID) : Prop :=
  lookupAssoc s'.buildObjs j = lookupAssoc s.buildObjs j ∧
  (j ∈ s'.registry ↔ j ∈ s.registry) ∧
  j ∉ s'.newBuildsByID ∧
  s.nrBuildsDone ≤ s'.nrBuildsDone ∧
  ∃ ext, s'.db = s.db ++ ext

theorem buildFrame_trans {s s₁ s' : LState} {j : BuildID}
    (h1 : buildFrame s s₁ j) (h2 : buildFrame s₁ s' j) : buildFrame s s' j :=
  ⟨h2.1.trans h1.1, h2.2.1.trans h1.2.1, h2.2.2.1,
   le_trans h1.2.2.2.1 h2.2.2.2.1,
   by
     obtain ⟨e1, he1⟩ := h1.2.2.2.2
     obtain ⟨e2, he2⟩ := h2.2.2.2.2
     exact ⟨e1 ++ e2, by rw [he2, he1, List.append_assoc]⟩⟩

theorem pnb_frame (fuel : Nat)
    (hP : ∀ (env : Env) (bid : BuildID) (s : LState) (o : Outcome)
      (s' : LState), createBuild fuel env bid s = some (o, s') →
      ∀ j, j ∉ s.newBuildsByID → j ≠ bid → buildFrame s s' j) :
    ∀ (L : List DrvPath) (env : Env) (s s' : LState),
      processNewBuilds fuel env L s = some s' →
      ∀ j, j ∉ s.newBuildsByID → buildFrame s s' j := by
  intro L
  induction L with
  | nil =>
    intro env s s' h j hj
    simp only [processNewBuilds] at h
    injection h with h1
    subst h1
    exact ⟨rfl, Iff.rfl, hj, le_refl _, [], (List.append_nil _).symm⟩
  | cons r L ih =>
    intro env s s' h j hj
    simp only [processNewBuilds] at h
    cases hf : s.newBuildsByPath.find? (fun e => decide (e.1 = r)) with
    | none =>
      simp only [hf] at h
      exact ih env s s' h j hj
    | some e =>
      simp only [hf] at h
      by_cases hmem : e.2 ∈ s.newBuildsByID
      · rw [if_pos hmem] at h
        cases hcb : createBuild fuel env e.2 s with
        | none =>
          simp only [hcb] at h
          exact absurd h (by simp)
        | some pr =>
          obtain ⟨o1, s1⟩ := pr
          simp only [hcb] at h
          have hj2 : j ≠ e.2 := fun hh => hj (hh ▸ hmem)
          have hfr1 := hP env e.2 s o1 s1 hcb j hj hj2
          have hfr2 := ih env s1 s' h j hfr1.2.2.1
          exact buildFrame_trans hfr1 hfr2
      · rw [if_neg hmem] at h
        exact ih env s s' h j hj

theorem createBuild_frame : ∀ (fuel : Nat) (env : Env) (bid : BuildID)
    (s : LState) (o : Outcome) (s' : LState),
    createBuild fuel env bid s = some (o, s') →
    ∀ j, j ∉ s.newBuildsByID → j ≠ bid → buildFrame s s' j := by
  intro fuel
  induction fuel with
  | zero =>
    intro env bid s o s' h
    simp [createBuild] at h
  | succ f ihf =>
    intro env bid s o s' h j hj hjb
    simp only [createBuild] at h
    cases hb : lookupAssoc s.buildObjs bid with
    | none =>
      simp only [hb] at h
      exact absurd h (by simp)
    | some b =>
      simp only [hb] at h
      have hjf : j ∉ s.newBuildsByID.filter (fun i => decide (i ≠ bid)) :=
        fun hh => hj (List.mem_of_mem_filter hh)
      cases hv : env.validPath b.drvPath with
      | false =>
        simp only [hv, Bool.not_false, if_true] at h
        cases hfin : b.finishedInDB with
        | false =>
          simp only [hfin, Bool.not_false, if_true] at h
          injection h with h1
          injection h1 with h2 h3
          subst h3
          exact ⟨lookupAssoc_setAssoc_other _ _ _ _ hjb, Iff.rfl, hjf,
            Nat.le_succ _, _, rfl⟩
        | true =>
          simp only [hfin, Bool.not_true, Bool.false_eq_true, if_false] at h
          injection h with h1
          injection h1 with h2 h3
          subst h3
          exact ⟨rfl, Iff.rfl, hjf, le_refl _, [], (List.append_nil _).symm⟩
      | true =>
        simp only [hv, Bool.not_true, Bool.false_eq_true, if_false] at h
        split at h
        · exact absurd h (by simp)
        · rename_i stepOpt cs1 hcs
          cases hpn : processNewBuilds f env cs1.newSteps
            { s with nrAdded := s.nrAdded + 1,
                     newBuildsByID := s.newBuildsByID.filter
                       (fun i => decide (i ≠ bid)),
                     graph := cs1.graph, newRunnable := cs1.newRunnable,
                     assertFailed := cs1.assertFailed } with
          | none =>
            simp only [hpn] at h
            exact absurd h (by simp)
          | some s2 =>
            simp only [hpn] at h
            have hfr2 := pnb_frame f ihf cs1.newSteps env _ s2 hpn j hjf
            have hlk2 : lookupAssoc s2.buildObjs j = lookupAssoc s.buildObjs j :=
              hfr2.1
            have hreg2 : (j ∈ s2.registry ↔ j ∈ s.registry) := hfr2.2.1
            have hbid2 : j ∉ s2.newBuildsByID := hfr2.2.2.1
            have hnd2 : s.nrBuildsDone ≤ s2.nrBuildsDone := hfr2.2.2.2.1
            obtain ⟨ext2, hdb2⟩ := hfr2.2.2.2.2
            cases stepOpt with
            | none =>
              injection h with h1
              injection h1 with h2 h3
              subst h3
              exact ⟨(lookupAssoc_setAssoc_other _ _ _ _ hjb).trans hlk2,
                hreg2, hbid2, hnd2,
                ext2 ++ [DBEvent.markSucceeded bid true env.now env.now],
                by simp [hdb2]⟩
            | some topStep =>
              cases hscan : badStepScan env topStep cs1.newSteps with
              | none =>
                simp only [hscan] at h
                cases hfin2 : (getBuildD s2.buildObjs bid).finishedInDB with
                | false =>
                  simp only [hfin2, Bool.not_false, if_true] at h
                  injection h with h1
                  injection h1 with h2 h3
                  subst h3
                  refine ⟨(lookupAssoc_setAssoc_other _ _ _ _ hjb).trans hlk2,
                    ?_, hbid2, hnd2, ext2, hdb2⟩
                  constructor
                  · intro hh
                    rcases (mem_insertNew _ _ _).mp hh with h4 | h4
                    · exact hreg2.mp h4
                    · exact absurd h4 hjb
                  · intro hh
                    exact (mem_insertNew _ _ _).mpr (Or.inl (hreg2.mpr hh))
                | true =>
                  simp only [hfin2, Bool.not_true, Bool.false_eq_true,
                    if_false] at h
                  injection h with h1
                  injection h1 with h2 h3
                  subst h3
                  exact ⟨(lookupAssoc_setAssoc_other _ _ _ _ hjb).trans hlk2,
                    hreg2, hbid2, hnd2, ext2, hdb2⟩
              | some rss =>
                obtain ⟨r, stst⟩ := rss
                obtain ⟨st, sst⟩ := stst
                simp only [hscan] at h
                cases hfin2 : (getBuildD s2.buildObjs bid).finishedInDB with
                | false =>
                  simp only [hfin2, Bool.not_false, if_true] at h
                  injection h with h1
                  injection h1 with h2 h3
                  subst h3
                  refine ⟨(lookupAssoc_setAssoc_other _ _ _ _ hjb).trans hlk2,
                    hreg2, hbid2, le_trans hnd2 (Nat.le_succ _), ?_⟩
                  exact ⟨ext2 ++ _, by rw [hdb2, List.append_assoc]⟩
                | true =>
                  simp only [hfin2, Bool.not_true, Bool.false_eq_true,
                    if_false] at h
                  injection h with h1
                  injection h1 with h2 h3
                  subst h3
                  exact ⟨hlk2, hreg2, hbid2, hnd2, ext2, hdb2⟩

/-- `createStep` returns either the null pointer or the step for exactly
the derivation path it was asked for. -/
theorem createStep_result_shape (fuel : Nat) (env : Env) (p : DrvPath)
    (rb : Option BuildID) (rs : Option DrvPath) (s : CS)
    (r : Option DrvPath) (cs' : CS)
    (h : createStep fuel env p rb rs s = some (r, cs')) :
    r = none ∨ r = some p := by
  cases fuel with
  | zero => simp [createStep] at h
  | succ f =>
    simp only [createStep] at h
    repeat' split at h
    all_goals first
    | exact Option.noConfusion h
    | (injection h with h1
       injection h1 with h2 h3
       first
       | exact Or.inl h2.symm
       | exact Or.inr h2.symm)

/-- The classification loop stops at the first badly classified step, and
reports exactly its classification. -/
theorem badStepScan_classify (env : Env) (top : DrvPath) (L : List DrvPath)
    (r : DrvPath) (st : BuildStatus) (sst : BuildStepStatus)
    (h : badStepScan env top L = some (r, st, sst)) :
    classifyStep env top r = some (st, sst) ∧ r ∈ L := by
  induction L with
  | nil => simp [badStepScan] at h
  | cons a L ih =>
    simp only [badStepScan] at h
    cases hc : classifyStep env top a with
    | none =>
      simp only [hc] at h
      obtain ⟨h1, h2⟩ := ih h
      exact ⟨h1, List.mem_cons.mpr (Or.inr h2)⟩
    | some pr =>
      obtain ⟨st0, sst0⟩ := pr
      simp only [hc, Option.some.injEq, Prod.mk.injEq] at h
      obtain ⟨h1, h2, h3⟩ := h
      subst h1
      subst h2
      subst h3
      exact ⟨hc, List.mem_cons_self _ _⟩

/-- **C2.** A build whose expansion produced a step with a cached failure
or a step no registered machine supports is finalized before admission:
the build status is `Failed` if the bad step is the build's top-level step,
`DepFailed` if it is a dependency, and `Unsupported` when no machine
supports it (cached failure checked first); a `BuildStep` row is written
with the corresponding step status followed by the `Builds` update whose
`isCachedBuild` is 1 exactly when the status is not `Unsupported` and 0
otherwise; `finishedInDB` is set, `nrBuildsDone` is incremented, and the
build is never inserted into the build registry. -/
theorem createBuild_badStep (fuel : Nat) (env : Env) (bid : BuildID)
    (s : LState) (b : BuildData) (r : DrvPath) (status : BuildStatus)
    (wrote : Bool) (s₂ : LState)
    (hb : lookupAssoc s.buildObjs bid = some b)
    (hfin : b.finishedInDB = false)
    (hreg : bid ∉ s.registry)
    (hrun : createBuild fuel env bid s =
      some (Outcome.badStep r status wrote, s₂)) :
    wrote = true ∧
    (if env.cachedFailure r = true then
      status = (if r = b.drvPath then BuildStatus.bsFailed
                else BuildStatus.bsDepFailed)
     else env.supported r = false ∧ status = BuildStatus.bsUnsupported) ∧
    (∃ pre sst ic,
      s₂.db = s.db ++ pre ++
        [DBEvent.buildStepRow { buildId := bid, drvPath := r, status := sst },
         DBEvent.updateBuild
           { id := bid, buildStatus := status, startTime := env.now,
             stopTime := env.now, errorMsg := none,
             isCachedBuild := some ic }] ∧
      (if env.cachedFailure r = true then sst = BuildStepStatus.bssFailed
       else sst = BuildStepStatus.bssUnsupported) ∧
      (ic = 1 ↔ status ≠ BuildStatus.bsUnsupported) ∧
      (ic = 0 ↔ status = BuildStatus.bsUnsupported)) ∧
    (getBuildD s₂.buildObjs bid).finishedInDB = true ∧
    bid ∉ s₂.registry ∧
    s.nrBuildsDone < s₂.nrBuildsDone := by
  cases fuel with
  | zero => simp [createBuild] at hrun
  | succ f =>
    simp only [createBuild] at hrun
    rw [hb] at hrun
    simp only [] at hrun
    cases hv : env.validPath b.drvPath with
    | false =>
      simp only [hv, Bool.not_false, if_true, hfin] at hrun
      exact absurd hrun (by simp)
    | true =>
      simp only [hv, Bool.not_true, Bool.false_eq_true, if_false] at hrun
      split at hrun
      · exact absurd hrun (by simp)
      · rename_i stepOpt cs1 hcs
        cases hpn : processNewBuilds f env cs1.newSteps
          { s with nrAdded := s.nrAdded + 1,
                   newBuildsByID := s.newBuildsByID.filter
                     (fun i => decide (i ≠ bid)),
                   graph := cs1.graph, newRunnable := cs1.newRunnable,
                   assertFailed := cs1.assertFailed } with
        | none =>
          simp only [hpn] at hrun
          exact absurd hrun (by simp)
        | some s2 =>
          simp only [hpn] at hrun
          have hbidf : bid ∉ List.filter (fun i => decide (i ≠ bid))
              s.newBuildsByID := by
            simp [List.mem_filter]
          have hfr := pnb_frame f (createBuild_frame f) cs1.newSteps env _ s2
            hpn bid hbidf
          have hlk2 : lookupAssoc s2.buildObjs bid = some b := by
            rw [hfr.1]; exact hb
          have hreg2 : bid ∉ s2.registry := fun hh => hreg (hfr.2.1.mp hh)
          have hnd2 : s.nrBuildsDone ≤ s2.nrBuildsDone := hfr.2.2.2.1
          obtain ⟨ext2, hdb2⟩ := hfr.2.2.2.2
          cases stepOpt with
          | none => exact absurd hrun (by simp)
          | some topStep =>
            have htop : topStep = b.drvPath := by
              rcases createStep_result_shape f env b.drvPath (some bid) none _
                (some topStep) cs1 hcs with h1 | h1
              · exact absurd h1 (by simp)
              · exact Option.some.inj h1
            subst htop
            cases hscan : badStepScan env b.drvPath cs1.newSteps with
            | none =>
              simp only [hscan] at hrun
              exact absurd hrun (by simp)
            | some rss =>
              obtain ⟨r0, stst⟩ := rss
              obtain ⟨st0, sst0⟩ := stst
              simp only [hscan] at hrun
              have hfin2 : (getBuildD s2.buildObjs bid).finishedInDB = false := by
                rw [getBuildD, hlk2]
                exact hfin
              simp only [hfin2, Bool.not_false, if_true, Option.some.injEq,
                Prod.mk.injEq] at hrun
              obtain ⟨hA, h3⟩ := hrun
              injection hA with hr0 hst0 hw
              subst hr0
              subst hst0
              subst h3
              obtain ⟨hcl, -⟩ := badStepScan_classify env b.drvPath
                cs1.newSteps r0 st0 sst0 hscan
              have hclass :
                  (if env.cachedFailure r0 = true then
                    st0 = (if r0 = b.drvPath then BuildStatus.bsFailed
                              else BuildStatus.bsDepFailed)
                   else env.supported r0 = false ∧
                     st0 = BuildStatus.bsUnsupported) ∧
                  (if env.cachedFailure r0 = true then
                    sst0 = BuildStepStatus.bssFailed
                   else sst0 = BuildStepStatus.bssUnsupported) := by
                unfold classifyStep at hcl
                cases hcf : env.cachedFailure r0 with
                | true =>
                  simp only [hcf, if_true] at hcl ⊢
                  simp only [Option.some.injEq, Prod.mk.injEq] at hcl
                  exact ⟨hcl.1.symm, hcl.2.symm⟩
                | false =>
                  simp only [hcf, Bool.false_eq_true, if_false] at hcl ⊢
                  cases hsup : env.supported r0 with
                  | true => simp [hsup] at hcl
                  | false =>
                    simp only [hsup, Bool.not_false, if_true,
                      Option.some.injEq, Prod.mk.injEq] at hcl
                    exact ⟨⟨rfl, hcl.1.symm⟩, hcl.2.symm⟩
              refine ⟨hw.symm, hclass.1, ?_, ?_, hreg2, ?_⟩
              · refine ⟨ext2, sst0,
                  (if st0 ≠ BuildStatus.bsUnsupported then 1 else 0),
                  ?_, hclass.2, ?_, ?_⟩
                · simp only [hdb2, List.append_assoc]
                · by_cases hu : st0 = BuildStatus.bsUnsupported
                  · simp [hu]
                  · simp [hu]
                · by_cases hu : st0 = BuildStatus.bsUnsupported
                  · simp [hu]
                  · simp [hu]
              · simp [getBuildD, lookupAssoc_setAssoc_same]
              · exact Nat.lt_succ_of_le hnd2

/-- Environment for the C2 witness: the derivation path is valid, its
output is not, and the cached-failure table knows the path. -/
def envBad : Env :=
  { validPath := fun p => decide (p = "/d/a.drv"),
    drvs := fun _ =>
      { outputs := [("out", "/o/a")], inputDrvs := [], platform := "x",
        env := [] },
    localPlatforms := [], cachedFailure := fun p => decide (p = "/d/a.drv"),
    supported := fun _ => true, buildOne := none, now := 100 }

/-- The queued build of the C2 witness. -/
def bBad : BuildData :=
  { (default : BuildData) with
    id := 8, drvPath := "/d/a.drv", finishedInDB := false }

/-- Loader state holding `bBad`, for the C2 witness. -/
def sBad : LState := { emptyL with buildObjs := [(8, bBad)] }

/-- The result of running the loader on the C2 witness input. -/
def c2res : Outcome × LState := (createBuild 5 envBad 8 sBad).getD default

/-- Witness for C2: a cached failure on the top-level step finalizes the
build as `Failed` with `isCachedBuild = 1` and keeps it out of the
registry. -/
theorem createBuild_badStep_witness :
    lookupAssoc sBad.buildObjs 8 = some bBad ∧
    bBad.finishedInDB = false ∧
    (8 ∉ sBad.registry) ∧
    createBuild 5 envBad 8 sBad =
      some (Outcome.badStep "/d/a.drv" BuildStatus.bsFailed true, c2res.2) ∧
    (true = true ∧
     (if envBad.cachedFailure "/d/a.drv" = true then
       BuildStatus.bsFailed = (if "/d/a.drv" = bBad.drvPath
         then BuildStatus.bsFailed else BuildStatus.bsDepFailed)
      else envBad.supported "/d/a.drv" = false ∧
        BuildStatus.bsFailed = BuildStatus.bsUnsupported) ∧
     (∃ pre sst ic,
       c2res.2.db = sBad.db ++ pre ++
         [DBEvent.buildStepRow
            { buildId := 8, drvPath := "/d/a.drv", status := sst },
          DBEvent.updateBuild
            { id := 8, buildStatus := BuildStatus.bsFailed,
              startTime := envBad.now, stopTime := envBad.now,
              errorMsg := none, isCachedBuild := some ic }] ∧
       (if envBad.cachedFailure "/d/a.drv" = true then
         sst = BuildStepStatus.bssFailed
        else sst = BuildStepStatus.bssUnsupported) ∧
       (ic = 1 ↔ BuildStatus.bsFailed ≠ BuildStatus.bsUnsupported) ∧
       (ic = 0 ↔ BuildStatus.bsFailed = BuildStatus.bsUnsupported)) ∧
     (getBuildD c2res.2.buildObjs 8).finishedInDB = true ∧
     (8 ∉ c2res.2.registry) ∧
     sBad.nrBuildsDone < c2res.2.nrBuildsDone) := by
  have hs : (createBuild 5 envBad 8 sBad).isSome = true := by
    simp [createBuild, createStep, createDeps, processNewBuilds, badStepScan,
      classifyStep, sBad, emptyL, bBad, envBad, lookupAssoc, lookupEntry,
      lookupLive, setAssoc, eraseAssoc, setEntry, updateLive, insertNew,
      getBuildD, freshStep, emptyDrv, tokenizeWS]
  have hpair : createBuild 5 envBad 8 sBad = some (c2res.1, c2res.2) :=
    option_eq_some_getD _ hs
  have h1 : c2res.1 = Outcome.badStep "/d/a.drv" BuildStatus.bsFailed true := by
    simp [c2res, createBuild, createStep, createDeps, processNewBuilds,
      badStepScan, classifyStep, sBad, emptyL, bBad, envBad, lookupAssoc,
      lookupEntry, lookupLive, setAssoc, eraseAssoc, setEntry, updateLive,
      insertNew, getBuildD, freshStep, emptyDrv, tokenizeWS]
  have hrun : createBuild 5 envBad 8 sBad =
      some (Outcome.badStep "/d/a.drv" BuildStatus.bsFailed true, c2res.2) := by
    rw [← h1]
    exact hpair
  exact ⟨rfl, rfl, by simp [sBad, emptyL], hrun,
    createBuild_badStep 5 envBad 8 sBad bBad "/d/a.drv" BuildStatus.bsFailed
      true c2res.2 rfl rfl (by simp [sBad, emptyL]) hrun⟩

/-! ## Claim C9: what `nrBuildsRead` counts -/

theorem insertNew_nodup {α : Type} [DecidableEq α] (xs : List α) (x : α)
    (h : xs.Nodup) : (insertNew xs x).Nodup := by
  unfold insertNew
  by_cases hm : x ∈ xs
  · simp [hm, h]
  · rw [if_neg hm]
    refine List.Nodup.append h (List.nodup_singleton x) ?_
    intro a ha hb
    simp only [List.mem_singleton] at hb
    subst hb
    exact hm ha

theorem insertNew_subset {α : Type} [DecidableEq α] {xs ys : List α} {x : α}
    (h : ∀ a ∈ xs, a ∈ ys) (hx : x ∈ ys) : ∀ a ∈ insertNew xs x, a ∈ ys := by
  intro a ha
  rcases (mem_insertNew xs x a).mp ha with h1 | h1
  · exact h a h1
  · exact h1 ▸ hx

theorem length_filter_ne_of_nodup_mem {α : Type} [DecidableEq α]
    (l : List α) (a : α) (hm : a ∈ l) (hnd : l.Nodup) :
    (l.filter (fun i => decide (i ≠ a))).length + 1 = l.length := by
  induction l with
  | nil => simp at hm
  | cons b t ih =>
    by_cases hba : b = a
    · subst hba
      have hat : b ∉ t := (List.nodup_cons.mp hnd).1
      have hft : t.filter (fun i => decide (i ≠ b)) = t := by
        apply List.filter_eq_self.mpr
        intro x hx
        simp only [decide_eq_true_eq]
        exact fun hxb => hat (hxb ▸ hx)
      have hdb : (decide (b ≠ b)) = false := by simp
      simp only [List.filter_cons, hdb, Bool.false_eq_true, if_false, hft,
        List.length_cons]
    · have hat : a ∈ t := by
        rcases List.mem_cons.mp hm with h1 | h1
        · exact absurd h1.symm hba
        · exact h1
      have ihh := ih hat (List.nodup_cons.mp hnd).2
      have hbt : (decide (b ≠ a)) = true := by simp [hba]
      simp only [List.filter_cons, hbt, if_true, List.length_cons]
      omega

/-- The createBuild counting invariant: each loader invocation removes its
build from `newBuildsByID` and bumps `nrAdded` once, so the sum
`nrAdded + |newBuildsByID|` is preserved, `newBuildsByID` only loses
members (never `bid` again), stays duplicate-free, and `nrBuildsRead`
is untouched. -/
def countFrame (s s' : LState) (bid : BuildID) : Prop :=
  s'.nrAdded + s'.newBuildsByID.length = s.nrAdded + s.newBuildsByID.length ∧
  (∀ i ∈ s'.newBuildsByID,
    i ∈ s.newBuildsByID.filter (fun i => decide (i ≠ bid))) ∧
  s'.newBuildsByID.Nodup ∧
  s'.nrBuildsRead = s.nrBuildsRead

theorem pnb_count (fuel : Nat)
    (hP : ∀ (env : Env) (bid : BuildID) (s : LState) (o : Outcome)
      (s' : LState), createBuild fuel env bid s = some (o, s') →
      bid ∈ s.newBuildsByID → s.newBuildsByID.Nodup → countFrame s s' bid) :
    ∀ (L : List DrvPath) (env : Env) (s s' : LState),
      processNewBuilds fuel env L s = some s' → s.newBuildsByID.Nodup →
      s'.nrAdded + s'.newBuildsByID.length =
        s.nrAdded + s.newBuildsByID.length ∧
      (∀ i ∈ s'.newBuildsByID, i ∈ s.newBuildsByID) ∧
      s'.newBuildsByID.Nodup ∧
      s'.nrBuildsRead = s.nrBuildsRead := by
  intro L
  induction L with
  | nil =>
    intro env s s' h hnd
    simp only [processNewBuilds] at h
    injection h with h1
    subst h1
    exact ⟨rfl, fun i hi => hi, hnd, rfl⟩
  | cons r L ih =>
    intro env s s' h hnd
    simp only [processNewBuilds] at h
    cases hf : s.newBuildsByPath.find? (fun e => decide (e.1 = r)) with
    | none =>
      simp only [hf] at h
      exact ih env s s' h hnd
    | some e =>
      simp only [hf] at h
      by_cases hmem : e.2 ∈ s.newBuildsByID
      · rw [if_pos hmem] at h
        cases hcb : createBuild fuel env e.2 s with
        | none =>
          simp only [hcb] at h
          exact absurd h (by simp)
        | some pr =>
          obtain ⟨o1, s1⟩ := pr
          simp only [hcb] at h
          obtain ⟨c1, c2, c3, c4⟩ := hP env e.2 s o1 s1 hcb hmem hnd
          obtain ⟨d1, d2, d3, d4⟩ := ih env s1 s' h c3
          refine ⟨by omega, ?_, d3, d4.trans c4⟩
          intro i hi
          exact List.mem_of_mem_filter (c2 i (d2 i hi))
      · rw [if_neg hmem] at h
        exact ih env s s' h hnd

theorem createBuild_count : ∀ (fuel : Nat) (env : Env) (bid : BuildID)
    (s : LState) (o : Outcome) (s' : LState),
    createBuild fuel env bid s = some (o, s') →
    bid ∈ s.newBuildsByID → s.newBuildsByID.Nodup → countFrame s s' bid := by
  intro fuel
  induction fuel with
  | zero =>
    intro env bid s o s' h
    simp [createBuild] at h
  | succ f ihf =>
    intro env bid s o s' h hmem hnd
    have hlen : (s.newBuildsByID.filter
        (fun i => decide (i ≠ bid))).length + 1 = s.newBuildsByID.length :=
      length_filter_ne_of_nodup_mem _ _ hmem hnd
    have hndf : (s.newBuildsByID.filter
        (fun i => decide (i ≠ bid))).Nodup := List.Nodup.filter _ hnd
    simp only [createBuild] at h
    cases hb : lookupAssoc s.buildObjs bid with
    | none =>
      simp only [hb] at h
      exact absurd h (by simp)
    | some b =>
      simp only [hb] at h
      cases hv : env.validPath b.drvPath with
      | false =>
        simp only [hv, Bool.not_false, if_true] at h
        cases hfin : b.finishedInDB with
        | false =>
          simp only [hfin, Bool.not_false, if_true] at h
          injection h with h1
          injection h1 with h2 h3
          subst h3
          refine ⟨?_, fun i hi => hi, hndf, rfl⟩
          show s.nrAdded + 1 + (s.newBuildsByID.filter
            (fun i => decide (i ≠ bid))).length =
            s.nrAdded + s.newBuildsByID.length
          omega
        | true =>
          simp only [hfin, Bool.not_true, Bool.false_eq_true, if_false] at h
          injection h with h1
          injection h1 with h2 h3
          subst h3
          refine ⟨?_, fun i hi => hi, hndf, rfl⟩
          show s.nrAdded + 1 + (s.newBuildsByID.filter
            (fun i => decide (i ≠ bid))).length =
            s.nrAdded + s.newBuildsByID.length
          omega
      | true =>
        simp only [hv, Bool.not_true, Bool.false_eq_true, if_false] at h
        split at h
        · exact absurd h (by simp)
        · rename_i stepOpt cs1 hcs
          cases hpn : processNewBuilds f env cs1.newSteps
            { s with nrAdded := s.nrAdded + 1,
                     newBuildsByID := s.newBuildsByID.filter
                       (fun i => decide (i ≠ bid)),
                     graph := cs1.graph, newRunnable := cs1.newRunnable,
                     assertFailed := cs1.assertFailed } with
          | none =>
            simp only [hpn] at h
            exact absurd h (by simp)
          | some s2 =>
            simp only [hpn] at h
            obtain ⟨d1, d2, d3, d4⟩ := pnb_count f ihf cs1.newSteps env _ s2
              hpn hndf
            have d1x : s2.nrAdded + s2.newBuildsByID.length =
                s.nrAdded + 1 + (s.newBuildsByID.filter
                  (fun i => decide (i ≠ bid))).length := d1
            have d2x : ∀ i ∈ s2.newBuildsByID,
                i ∈ s.newBuildsByID.filter (fun i => decide (i ≠ bid)) := d2
            have d4x : s2.nrBuildsRead = s.nrBuildsRead := d4
            have hcnt : s2.nrAdded + s2.newBuildsByID.length =
                s.nrAdded + s.newBuildsByID.length := by omega
            cases stepOpt with
            | none =>
              injection h with h1
              injection h1 with h2 h3
              subst h3
              exact ⟨hcnt, d2x, d3, d4x⟩
            | some topStep =>
              cases hscan : badStepScan env topStep cs1.newSteps with
              | none =>
                simp only [hscan] at h
                cases hfin2 : (getBuildD s2.buildObjs bid).finishedInDB with
                | false =>
                  simp only [hfin2, Bool.not_false, if_true] at h
                  injection h with h1
                  injection h1 with h2 h3
                  subst h3
                  exact ⟨hcnt, d2x, d3, d4x⟩
                | true =>
                  simp only [hfin2, Bool.not_true, Bool.false_eq_true,
                    if_false] at h
                  injection h with h1
                  injection h1 with h2 h3
                  subst h3
                  exact ⟨hcnt, d2x, d3, d4x⟩
              | some rss =>
                obtain ⟨r, stst⟩ := rss
                obtain ⟨st, sst⟩ := stst
                simp only [hscan] at h
                cases hfin2 : (getBuildD s2.buildObjs bid).finishedInDB with
                | false =>
                  simp only [hfin2, Bool.not_false, if_true] at h
                  injection h with h1
                  injection h1 with h2 h3
                  subst h3
                  exact ⟨hcnt, d2x, d3, d4x⟩
                | true =>
                  simp only [hfin2, Bool.not_true, Bool.false_eq_true,
                    if_false] at h
                  injection h with h1
                  injection h1 with h2 h3
                  subst h3
                  exact ⟨hcnt, d2x, d3, d4x⟩

theorem runPass_count : ∀ (ids : List BuildID) (fuel : Nat) (env : Env)
    (s s' : LState), runPass fuel env ids s = some s' →
    (∀ i ∈ s.newBuildsByID, i ∈ ids) → s.newBuildsByID.Nodup →
    s'.nrBuildsRead = s.nrBuildsRead + s.newBuildsByID.length := by
  intro ids
  induction ids with
  | nil =>
    intro fuel env s s' h hsub hnd
    simp only [runPass] at h
    injection h with h1
    subst h1
    have hnil : s.newBuildsByID = [] :=
      List.eq_nil_iff_forall_not_mem.mpr (fun i hi => by simpa using hsub i hi)
    simp [hnil]
  | cons id rest ih =>
    intro fuel env s s' h hsub hnd
    simp only [runPass] at h
    by_cases hm : id ∈ s.newBuildsByID
    · rw [if_pos hm] at h
      cases hcb : createBuild fuel env id
          { s with newRunnable := [], nrAdded := 0 } with
      | none =>
        simp only [hcb] at h
        exact absurd h (by simp)
      | some pr =>
        obtain ⟨o1, s1⟩ := pr
        simp only [hcb] at h
        obtain ⟨c1, c2, c3, c4⟩ := createBuild_count fuel env id _ o1 s1 hcb
          hm hnd
        have c1x : s1.nrAdded + s1.newBuildsByID.length =
            0 + s.newBuildsByID.length := c1
        have c2x : ∀ i ∈ s1.newBuildsByID,
            i ∈ s.newBuildsByID.filter (fun i => decide (i ≠ id)) := c2
        have c4x : s1.nrBuildsRead = s.nrBuildsRead := c4
        have hsub2 : ∀ i ∈ s1.newBuildsByID, i ∈ rest := by
          intro i hi
          have hif := c2x i hi
          have himem := List.mem_of_mem_filter hif
          have hine : i ≠ id := by simpa using List.of_mem_filter hif
          rcases List.mem_cons.mp (hsub i himem) with h1 | h1
          · exact absurd h1 hine
          · exact h1
        have hrec := ih fuel env _ s' h hsub2 c3
        have hrecx : s'.nrBuildsRead =
            s1.nrBuildsRead + s1.nrAdded + s1.newBuildsByID.length := hrec
        omega
    · rw [if_neg hm] at h
      have hsub2 : ∀ i ∈ s.newBuildsByID, i ∈ rest := by
        intro i hi
        rcases List.mem_cons.mp (hsub i hi) with h1 | h1
        · exact absurd (h1 ▸ hi) hm
        · exact h1
      exact ih fuel env s s' h hsub2 hnd

theorem phase1Row_props (env : Env) (s : LState) (row : BuildRow)
    (h1 : ∀ i ∈ s.newBuildsByID, i ∈ s.newIDs) (h2 : s.newBuildsByID.Nodup) :
    (∀ i ∈ (phase1Row env s row).newBuildsByID,
      i ∈ (phase1Row env s row).newIDs) ∧
    (phase1Row env s row).newBuildsByID.Nodup ∧
    (phase1Row env s row).nrBuildsRead = s.nrBuildsRead := by
  unfold phase1Row
  cases hskip : (match env.buildOne with
    | some b1 => decide (row.id ≠ b1)
    | none => false : Bool) with
  | true =>
    simp only [hskip, if_true]
    exact ⟨h1, h2, trivial⟩
  | false =>
    simp only [hskip, Bool.false_eq_true, if_false]
    by_cases hgt : row.id > s.lastBuildId
    · rw [if_pos hgt]
      by_cases hreg : row.id ∈ ({ s with lastBuildId := row.id } : LState).registry
      · rw [if_pos hreg]
        exact ⟨h1, h2, rfl⟩
      · rw [if_neg hreg]
        refine ⟨?_, insertNew_nodup _ _ h2, rfl⟩
        refine insertNew_subset ?_ (by simp)
        intro a ha
        simp only [List.mem_append]
        exact Or.inl (h1 a ha)
    · rw [if_neg hgt]
      by_cases hreg : row.id ∈ s.registry
      · rw [if_pos hreg]
        exact ⟨h1, h2, rfl⟩
      · rw [if_neg hreg]
        refine ⟨?_, insertNew_nodup _ _ h2, rfl⟩
        refine insertNew_subset ?_ (by simp)
        intro a ha
        simp only [List.mem_append]
        exact Or.inl (h1 a ha)

theorem phase1_fold_props (env : Env) (rows : List BuildRow) : ∀ (s : LState),
    (∀ i ∈ s.newBuildsByID, i ∈ s.newIDs) → s.newBuildsByID.Nodup →
    (∀ i ∈ (rows.foldl (phase1Row env) s).newBuildsByID,
      i ∈ (rows.foldl (phase1Row env) s).newIDs) ∧
    (rows.foldl (phase1Row env) s).newBuildsByID.Nodup ∧
    (rows.foldl (phase1Row env) s).nrBuildsRead = s.nrBuildsRead := by
  induction rows with
  | nil => intro s h1 h2; exact ⟨h1, h2, rfl⟩
  | cons row rows ih =>
    intro s h1 h2
    simp only [List.foldl_cons]
    obtain ⟨p1, p2, p3⟩ := phase1Row_props env s row h1 h2
    obtain ⟨q1, q2, q3⟩ := ih (phase1Row env s row) p1 p2
    exact ⟨q1, q2, q3.trans p3⟩

theorem phase1_props (env : Env) (rows : List BuildRow) (s : LState) :
    (∀ i ∈ (phase1 env rows s).newBuildsByID, i ∈ (phase1 env rows s).newIDs) ∧
    (phase1 env rows s).newBuildsByID.Nodup ∧
    (phase1 env rows s).nrBuildsRead = s.nrBuildsRead := by
  unfold phase1
  exact phase1_fold_props env rows _ (by simp) List.nodup_nil

/-- A queue row whose derivation has been garbage-collected, for the C9
counterexample. -/
def rowCex : BuildRow :=
  { id := 1, project := "p", jobset := "j", job := "jb",
    drvPath := "/d/gone.drv", maxsilent := 0, timeout := 0, timestamp := 0,
    globalPriority := 0, priority := 0 }

/-- **C9 (counterexample).** In a pass over a single queued build whose
derivation has been garbage-collected, zero builds are admitted to the
registry, yet `nrBuildsRead` increases by one — the counter counts loaded
builds, not admitted builds. -/
theorem getQueuedBuilds_reads_cex :
    (getQueuedBuilds 2 envGCW [rowCex] emptyL).map
        (fun s2 => (s2.nrBuildsRead, s2.registry.length)) = some (1, 0) ∧
    emptyL.nrBuildsRead = 0 ∧ emptyL.registry.length = 0 ∧
    ¬ ((1 : Nat) = 0 + 0) := by
  refine ⟨?_, rfl, rfl, by omega⟩
  simp [getQueuedBuilds, phase1, phase1Row, runPass, createBuild, envGCW,
    envW, rowCex, emptyL, lookupAssoc, setAssoc, eraseAssoc, getBuildD,
    insertNew]

/-- **C9 (amended).** After each `getQueuedBuilds` pass, `nrBuildsRead` has
increased by exactly the number of builds the loader processed during the
pass — every build newly materialized from the snapshot (not filtered by
`buildOne`, not already registered), *including* those finalized as
aborted, cached-successful, failed or unsupported — not only by the number
admitted to the build registry. -/
theorem getQueuedBuilds_reads_loaded (fuel : Nat) (env : Env)
    (rows : List BuildRow) (s s' : LState)
    (h : getQueuedBuilds fuel env rows s = some s') :
    s'.nrBuildsRead = s.nrBuildsRead + newBuildCount env rows s := by
  unfold getQueuedBuilds at h
  obtain ⟨hA, hB, hC⟩ := phase1_props env rows s
  have hcnt := runPass_count (phase1 env rows s).newIDs fuel env _ s' h hA hB
  rw [hcnt, hC, newBuildCount]

/-- The result of the C9 witness pass. -/
def c9res : LState := (getQueuedBuilds 2 envGCW [rowCex] emptyL).getD default

/-- Witness for the amended C9 at a concrete pass. -/
theorem getQueuedBuilds_reads_loaded_witness :
    getQueuedBuilds 2 envGCW [rowCex] emptyL = some c9res ∧
    c9res.nrBuildsRead =
      emptyL.nrBuildsRead + newBuildCount envGCW [rowCex] emptyL := by
  have hs : (getQueuedBuilds 2 envGCW [rowCex] emptyL).isSome = true := by
    simp [getQueuedBuilds, phase1, phase1Row, runPass, createBuild, envGCW,
      envW, rowCex, emptyL, lookupAssoc, setAssoc, eraseAssoc, getBuildD,
      insertNew]
  have hpair : getQueuedBuilds 2 envGCW [rowCex] emptyL = some c9res :=
    option_eq_some_getD _ hs
  exact ⟨hpair,
    getQueuedBuilds_reads_loaded 2 envGCW [rowCex] emptyL c9res hpair⟩

/-! ## Claims C3 and C5: the `created != isNew` assertion and runnability

The derivation input graph is assumed acyclic, expressed through a rank
function that strictly decreases from a derivation to its inputs.  The
loader is the only thread inserting into the graph (the whole model is the
single-threaded loader). -/

/-- A path whose graph entry is live but not yet `created`: an expansion
in progress. -/
def liveUncreated (g : Graph) (q : DrvPath) : Prop :=
  ∃ d, lookupLive g q = some d ∧ d.created = false

theorem liveUncreated_updateLive (g : Graph) (p : DrvPath)
    (f : StepData → StepData) (hf : ∀ d, (f d).created = d.created)
    (q : DrvPath) :
    liveUncreated (updateLive g p f) q ↔ liveUncreated g q := by
  unfold liveUncreated
  by_cases hpq : q = p
  · subst hpq
    rw [lookupLive_updateLive_same]
    cases hg : lookupLive g q with
    | none => simp
    | some d =>
      simp only [Option.map_some']
      constructor
      · rintro ⟨d', hd', hc⟩
        refine ⟨d, rfl, ?_⟩
        have : d' = f d := by injection hd' with hh; exact hh.symm
        rw [this, hf d] at hc
        exact hc
      · rintro ⟨d', hd', hc⟩
        have hdd : d' = d := by injection hd' with hh; exact hh.symm
        exact ⟨f d, rfl, (hf d).trans (hdd ▸ hc)⟩
  · rw [lookupLive_updateLive_other g p q f hpq]

theorem createDeps_sound (fuel : Nat) (env : Env) (rank : DrvPath → Nat)
    (hCS : ∀ (p : DrvPath) (rb : Option BuildID) (rs : Option DrvPath)
      (s : CS) (r : Option DrvPath) (s' : CS),
      createStep fuel env p rb rs s = some (r, s') →
      (∀ q, liveUncreated s.graph q → rank p < rank q) →
      s'.assertFailed = s.assertFailed ∧
      (∀ q, liveUncreated s'.graph q → liveUncreated s.graph q) ∧
      (∀ q, rank p < rank q →
        lookupEntry s'.graph q = lookupEntry s.graph q) ∧
      (∀ q, q ∈ s'.newRunnable → q ∈ s.newRunnable ∨ rank q ≤ rank p)) :
    ∀ (L : List DrvPath) (parent : DrvPath) (s s' : CS),
    createDeps fuel env L parent s = some s' →
    (∀ q, liveUncreated s.graph q → rank parent ≤ rank q) →
    (∀ i ∈ L, rank i < rank parent) →
    s'.assertFailed = s.assertFailed ∧
    (∀ q, liveUncreated s'.graph q → liveUncreated s.graph q) ∧
    (∀ q, rank parent ≤ rank q → q ≠ parent →
      lookupEntry s'.graph q = lookupEntry s.graph q) ∧
    (∀ q, q ∈ s'.newRunnable → q ∈ s.newRunnable ∨ rank q < rank parent) ∧
    (∀ d, lookupLive s.graph parent = some d →
      ∃ d', lookupLive s'.graph parent = some d' ∧ d'.created = d.created) := by
  intro L
  induction L with
  | nil =>
    intro parent s s' h hGoodP hL
    simp only [createDeps] at h
    injection h with h1
    subst h1
    refine ⟨rfl, fun q hq => hq, fun q _ _ => rfl, fun q hq => Or.inl hq, ?_⟩
    intro d hd
    exact ⟨d, hd, rfl⟩
  | cons i L ih =>
    intro parent s s' h hGoodP hL
    have hiL : rank i < rank parent := hL i (List.mem_cons_self i L)
    simp only [createDeps] at h
    cases hcs : createStep fuel env i none (some parent) s with
    | none =>
      simp only [hcs] at h
      exact absurd h (by simp)
    | some pr =>
      obtain ⟨dep, s1⟩ := pr
      simp only [hcs] at h
      have hGood_i : ∀ q, liveUncreated s.graph q → rank i < rank q :=
        fun q hq => lt_of_lt_of_le hiL (hGoodP q hq)
      obtain ⟨a1, b1, c1, d1⟩ := hCS i none (some parent) s dep s1 hcs hGood_i
      -- characterize the state after the optional deps insertion
      have hmain : ∀ (s2 : CS),
          (s2.graph = s1.graph ∨
            s2.graph = updateLive s1.graph parent
              (fun dd => { dd with deps := insertNew dd.deps (dep.getD parent) })) →
          s2.finishedDrvs = s1.finishedDrvs →
          s2.newSteps = s1.newSteps →
          s2.newRunnable = s1.newRunnable →
          s2.assertFailed = s1.assertFailed →
          createDeps fuel env L parent s2 = some s' →
          s'.assertFailed = s.assertFailed ∧
          (∀ q, liveUncreated s'.graph q → liveUncreated s.graph q) ∧
          (∀ q, rank parent ≤ rank q → q ≠ parent →
            lookupEntry s'.graph q = lookupEntry s.graph q) ∧
          (∀ q, q ∈ s'.newRunnable →
            q ∈ s.newRunnable ∨ rank q < rank parent) ∧
          (∀ d, lookupLive s.graph parent = some d →
            ∃ d', lookupLive s'.graph parent = some d' ∧
              d'.created = d.created) := by
        intro s2 hg2 hfd2 hns2 hnr2 haf2 hrec
        have hlu2 : ∀ q, liveUncreated s2.graph q ↔ liveUncreated s1.graph q := by
          intro q
          rcases hg2 with hg2 | hg2
          · rw [hg2]
          · rw [hg2]
            exact liveUncreated_updateLive s1.graph parent
              (fun dd => { dd with deps := insertNew dd.deps (dep.getD parent) })
              (fun dd => rfl) q
        have hent2 : ∀ q, q ≠ parent →
            lookupEntry s2.graph q = lookupEntry s1.graph q := by
          intro q hq
          rcases hg2 with hg2 | hg2
          · rw [hg2]
          · rw [hg2]
            exact lookupEntry_updateLive_other s1.graph parent q _ hq
        have hGoodP2 : ∀ q, liveUncreated s2.graph q → rank parent ≤ rank q :=
          fun q hq => hGoodP q (b1 q ((hlu2 q).mp hq))
        have hL2 : ∀ j ∈ L, rank j < rank parent :=
          fun j hj => hL j (List.mem_cons.mpr (Or.inr hj))
        obtain ⟨a3, b3, c3, d3, e3⟩ := ih parent s2 s' hrec hGoodP2 hL2
        refine ⟨?_, ?_, ?_, ?_, ?_⟩
        · rw [a3, haf2, a1]
        · intro q hq
          exact b1 q ((hlu2 q).mp (b3 q hq))
        · intro q hge hne
          rw [c3 q hge hne, hent2 q hne, c1 q (lt_of_lt_of_le hiL hge)]
        · intro q hq
          rcases d3 q hq with hq2 | hq2
          · rw [hnr2] at hq2
            rcases d1 q hq2 with hq3 | hq3
            · exact Or.inl hq3
            · exact Or.inr (lt_of_le_of_lt hq3 hiL)
          · exact Or.inr hq2
        · intro d hd
          have hent1 : lookupEntry s1.graph parent = lookupEntry s.graph parent :=
            c1 parent hiL
          have hlive1 : lookupLive s1.graph parent = some d := by
            rw [lookupLive_eq] at hd ⊢
            rw [hent1]
            exact hd
          have hlive2 : ∃ d2, lookupLive s2.graph parent = some d2 ∧
              d2.created = d.created := by
            rcases hg2 with hg2 | hg2
            · exact ⟨d, by rw [hg2]; exact hlive1, rfl⟩
            · refine ⟨{ d with deps := insertNew d.deps (dep.getD parent) },
                ?_, rfl⟩
              rw [hg2, lookupLive_updateLive_same, hlive1]
              rfl
          obtain ⟨d2, hd2, hc2⟩ := hlive2
          obtain ⟨d4, hd4, hc4⟩ := e3 d2 hd2
          exact ⟨d4, hd4, hc4.trans hc2⟩
      cases dep with
      | none =>
        exact hmain s1 (Or.inl rfl) rfl rfl rfl rfl h
      | some dp =>
        refine hmain
          { s1 with
            graph := updateLive s1.graph parent
              (fun d => { d with deps := insertNew d.deps dp }) }
          (Or.inr ?_) rfl rfl rfl rfl h
        rfl



theorem createStep_sound : ∀ (fuel : Nat) (env : Env) (rank : DrvPath → Nat),
    (∀ q i, i ∈ (env.drvs q).inputDrvs → rank i < rank q) →
    ∀ (p : DrvPath) (rb : Option BuildID) (rs : Option DrvPath) (s : CS)
      (r : Option DrvPath) (s' : CS),
    createStep fuel env p rb rs s = some (r, s') →
    (∀ q, liveUncreated s.graph q → rank p < rank q) →
    s'.assertFailed = s.assertFailed ∧
    (∀ q, liveUncreated s'.graph q → liveUncreated s.graph q) ∧
    (∀ q, rank p < rank q → lookupEntry s'.graph q = lookupEntry s.graph q) ∧
    (∀ q, q ∈ s'.newRunnable → q ∈ s.newRunnable ∨ rank q ≤ rank p) := by
  intro fuel
  induction fuel with
  | zero =>
    intro env rank hAcyc p rb rs s r s' h hGood
    simp [createStep] at h
  | succ f ihf =>
    intro env rank hAcyc p rb rs s r s' h hGood
    have hCSf := ihf env rank hAcyc
    simp only [createStep] at h
    by_cases hfin : p ∈ s.finishedDrvs
    · rw [if_pos hfin] at h
      injection h with h1
      injection h1 with h2 h3
      subst h3
      exact ⟨rfl, fun q hq => hq, fun q _ => rfl, fun q hq => Or.inl hq⟩
    · rw [if_neg hfin] at h
      cases he : lookupEntry s.graph p with
      | some ent =>
        cases ent with
        | some d =>
          have hfound : lookupLive s.graph p = some d := by
            simp [lookupLive, he]
          have hdc : d.created = true := by
            cases hcc : d.created with
            | true => rfl
            | false =>
              exact absurd (hGood p ⟨d, hfound, hcc⟩) (lt_irrefl _)
          simp only [he, hfound, Option.isNone_some, Bool.not_false,
            if_true] at h
          injection h with h1
          injection h1 with h2 h3
          subst h3
          refine ⟨by simp [hdc], ?_, ?_, fun q hq => Or.inl hq⟩
          · intro q hq
            obtain ⟨dq, hdq, hcq⟩ := hq
            by_cases hqp : q = p
            · subst hqp
              rw [lookupLive_setEntry_same] at hdq
              injection hdq with hdqe
              rw [← hdqe] at hcq
              have hcd2 : d.created = false := hcq
              rw [hdc] at hcd2
              exact absurd hcd2 (by simp)
            · rw [lookupLive_setEntry_other _ _ _ _ hqp] at hdq
              exact ⟨dq, hdq, hcq⟩
          · intro q hlt
            have hqp : q ≠ p := fun hh => absurd (hh ▸ hlt) (lt_irrefl _)
            exact lookupEntry_setEntry_other _ _ _ _ hqp
        | none =>
          have hfound : lookupLive s.graph p = none := by
            simp [lookupLive, he]
          have hg1 : ∀ q, q ≠ p →
              lookupEntry (eraseEntry s.graph p) q = lookupEntry s.graph q :=
            fun q hq => lookupEntry_eraseEntry_other _ _ _ hq
          simp only [he, hfound, Option.isNone_none, Bool.not_true,
            Bool.false_eq_true, if_false, updateLive, lookupLive_setEntry_same] at h
          cases hval : (env.drvs p).outputs.all (fun o => env.validPath o.2) with
          | true =>
            simp only [hval, if_true] at h
            injection h with h1
            injection h1 with h2 h3
            subst h3
            refine ⟨by simp [freshStep], ?_, ?_, fun q hq => Or.inl hq⟩
            · intro q hq
              obtain ⟨dq, hdq, hcq⟩ := hq
              by_cases hqp : q = p
              · subst hqp
                rw [lookupLive_eq, lookupEntry_setEntry_same] at hdq
                exact absurd hdq (by simp)
              · have hdq2 : lookupLive s.graph q = some dq := by
                  rw [← hdq, lookupLive_setEntry_other _ _ _ _ hqp,
                      lookupLive_setEntry_other _ _ _ _ hqp,
                      lookupLive_setEntry_other _ _ _ _ hqp]
                  all_goals unfold lookupLive
                  all_goals rw [hg1 q hqp]
                exact ⟨dq, hdq2, hcq⟩
            · intro q hlt
              have hqp : q ≠ p := fun hh => absurd (hh ▸ hlt) (lt_irrefl _)
              rw [lookupEntry_setEntry_other _ _ _ _ hqp,
                  lookupEntry_setEntry_other _ _ _ _ hqp,
                  lookupEntry_setEntry_other _ _ _ _ hqp]
              all_goals rw [hg1 q hqp]
          | false =>
            simp only [hval, Bool.false_eq_true, if_false] at h
            split at h
            · exact absurd h (by simp)
            · rename_i s4 hcd
              have hDS := createDeps_sound f env rank hCSf
                (env.drvs p).inputDrvs p _ s4 hcd
              have hDS2 := hDS
                (by
                  intro q hq
                  by_cases hqp : q = p
                  · exact le_of_eq (by rw [hqp])
                  · obtain ⟨dq, hdq, hcq⟩ := hq
                    have hdq2 : lookupLive s.graph q = some dq := by
                      rw [← hdq, lookupLive_setEntry_other _ _ _ _ hqp,
                          lookupLive_setEntry_other _ _ _ _ hqp]
                      all_goals unfold lookupLive
                      all_goals rw [hg1 q hqp]
                    exact le_of_lt (hGood q ⟨dq, hdq2, hcq⟩))
                (fun i hi => hAcyc p i hi)
              obtain ⟨a4, b4, c4, dd4, e4⟩ := hDS2
              obtain ⟨dS, hlS, hcS⟩ := e4 _ (lookupLive_setEntry_same _ _ _)
              have hcSf : dS.created = false := by rw [hcS]; rfl
              cases hl4 : lookupLive s4.graph p with
              | none =>
                rw [hl4] at hlS
                exact absurd hlS (by simp)
              | some d5 =>
                simp only [hl4] at h
                rw [hl4] at hlS
                injection hlS with hd5e
                have hc5 : d5.created = false := by rw [hd5e]; exact hcSf
                injection h with h1
                injection h1 with h2 h3
                subst h3
                have ha4 : s4.assertFailed = s.assertFailed := by
                  rw [a4]
                  simp [freshStep]
                refine ⟨?_, ?_, ?_, ?_⟩
                · show (s4.assertFailed || d5.created) = s.assertFailed
                  rw [hc5, Bool.or_false, ha4]
                · intro q hq
                  obtain ⟨dq, hdq, hcq⟩ := hq
                  by_cases hqp : q = p
                  · subst hqp
                    rw [lookupLive_setEntry_same] at hdq
                    injection hdq with hdqe
                    rw [← hdqe] at hcq
                    exact absurd hcq (by simp)
                  · rw [lookupLive_setEntry_other _ _ _ _ hqp] at hdq
                    obtain ⟨dq3, hdq3, hcq3⟩ := b4 q ⟨dq, hdq, hcq⟩
                    have hdq4 : lookupLive s.graph q = some dq3 := by
                      rw [← hdq3, lookupLive_setEntry_other _ _ _ _ hqp,
                          lookupLive_setEntry_other _ _ _ _ hqp]
                      all_goals unfold lookupLive
                      all_goals rw [hg1 q hqp]
                    exact ⟨dq3, hdq4, hcq3⟩
                · intro q hlt
                  have hqp : q ≠ p := fun hh => absurd (hh ▸ hlt) (lt_irrefl _)
                  rw [lookupEntry_setEntry_other _ _ _ _ hqp,
                      c4 q (le_of_lt hlt) hqp,
                      lookupEntry_setEntry_other _ _ _ _ hqp,
                      lookupEntry_setEntry_other _ _ _ _ hqp]
                  all_goals rw [hg1 q hqp]
                · intro q hq
                  have hq2 : q ∈ (if d5.deps.isEmpty
                      then insertNew s4.newRunnable p else s4.newRunnable) := hq
                  have hmem4 : q ∈ s4.newRunnable ∨ q = p := by
                    cases hemp : d5.deps.isEmpty with
                    | true =>
                      simp only [hemp, if_true] at hq2
                      exact (mem_insertNew _ _ _).mp hq2
                    | false =>
                      simp only [hemp, Bool.false_eq_true, if_false] at hq2
                      exact Or.inl hq2
                  rcases hmem4 with hmem4 | hmem4
                  · rcases dd4 q hmem4 with hmem5 | hmem5
                    · exact Or.inl hmem5
                    · exact Or.inr (le_of_lt hmem5)
                  · exact Or.inr (le_of_eq (by rw [hmem4]))
      | none =>
        have hfound : lookupLive s.graph p = none := by
          simp [lookupLive, he]
        have hg1 : ∀ q, q ≠ p →
            lookupEntry s.graph q = lookupEntry s.graph q :=
          fun q hq => rfl
        simp only [he, hfound, Option.isNone_none, Bool.not_true,
          Bool.false_eq_true, if_false, updateLive, lookupLive_setEntry_same] at h
        cases hval : (env.drvs p).outputs.all (fun o => env.validPath o.2) with
        | true =>
          simp only [hval, if_true] at h
          injection h with h1
          injection h1 with h2 h3
          subst h3
          refine ⟨by simp [freshStep], ?_, ?_, fun q hq => Or.inl hq⟩
          · intro q hq
            obtain ⟨dq, hdq, hcq⟩ := hq
            by_cases hqp : q = p
            · subst hqp
              rw [lookupLive_eq, lookupEntry_setEntry_same] at hdq
              exact absurd hdq (by simp)
            · have hdq2 : lookupLive s.graph q = some dq := by
                rw [← hdq, lookupLive_setEntry_other _ _ _ _ hqp,
                    lookupLive_setEntry_other _ _ _ _ hqp,
                    lookupLive_setEntry_other _ _ _ _ hqp]
                all_goals unfold lookupLive
                all_goals rw [hg1 q hqp]
              exact ⟨dq, hdq2, hcq⟩
          · intro q hlt
            have hqp : q ≠ p := fun hh => absurd (hh ▸ hlt) (lt_irrefl _)
            rw [lookupEntry_setEntry_other _ _ _ _ hqp,
                lookupEntry_setEntry_other _ _ _ _ hqp,
                lookupEntry_setEntry_other _ _ _ _ hqp]
            all_goals rw [hg1 q hqp]
        | false =>
          simp only [hval, Bool.false_eq_true, if_false] at h
          split at h
          · exact absurd h (by simp)
          · rename_i s4 hcd
            have hDS := createDeps_sound f env rank hCSf
              (env.drvs p).inputDrvs p _ s4 hcd
            have hDS2 := hDS
              (by
                intro q hq
                by_cases hqp : q = p
                · exact le_of_eq (by rw [hqp])
                · obtain ⟨dq, hdq, hcq⟩ := hq
                  have hdq2 : lookupLive s.graph q = some dq := by
                    rw [← hdq, lookupLive_setEntry_other _ _ _ _ hqp,
                        lookupLive_setEntry_other _ _ _ _ hqp]
                    all_goals unfold lookupLive
                    all_goals rw [hg1 q hqp]
                  exact le_of_lt (hGood q ⟨dq, hdq2, hcq⟩))
              (fun i hi => hAcyc p i hi)
            obtain ⟨a4, b4, c4, dd4, e4⟩ := hDS2
            obtain ⟨dS, hlS, hcS⟩ := e4 _ (lookupLive_setEntry_same _ _ _)
            have hcSf : dS.created = false := by rw [hcS]; rfl
            cases hl4 : lookupLive s4.graph p with
            | none =>
              rw [hl4] at hlS
              exact absurd hlS (by simp)
            | some d5 =>
              simp only [hl4] at h
              rw [hl4] at hlS
              injection hlS with hd5e
              have hc5 : d5.created = false := by rw [hd5e]; exact hcSf
              injection h with h1
              injection h1 with h2 h3
              subst h3
              have ha4 : s4.assertFailed = s.assertFailed := by
                rw [a4]
                simp [freshStep]
              refine ⟨?_, ?_, ?_, ?_⟩
              · show (s4.assertFailed || d5.created) = s.assertFailed
                rw [hc5, Bool.or_false, ha4]
              · intro q hq
                obtain ⟨dq, hdq, hcq⟩ := hq
                by_cases hqp : q = p
                · subst hqp
                  rw [lookupLive_setEntry_same] at hdq
                  injection hdq with hdqe
                  rw [← hdqe] at hcq
                  exact absurd hcq (by simp)
                · rw [lookupLive_setEntry_other _ _ _ _ hqp] at hdq
                  obtain ⟨dq3, hdq3, hcq3⟩ := b4 q ⟨dq, hdq, hcq⟩
                  have hdq4 : lookupLive s.graph q = some dq3 := by
                    rw [← hdq3, lookupLive_setEntry_other _ _ _ _ hqp,
                        lookupLive_setEntry_other _ _ _ _ hqp]
                    all_goals unfold lookupLive
                    all_goals rw [hg1 q hqp]
                  exact ⟨dq3, hdq4, hcq3⟩
              · intro q hlt
                have hqp : q ≠ p := fun hh => absurd (hh ▸ hlt) (lt_irrefl _)
                rw [lookupEntry_setEntry_other _ _ _ _ hqp,
                    c4 q (le_of_lt hlt) hqp,
                    lookupEntry_setEntry_other _ _ _ _ hqp,
                    lookupEntry_setEntry_other _ _ _ _ hqp]
                all_goals rw [hg1 q hqp]
              · intro q hq
                have hq2 : q ∈ (if d5.deps.isEmpty
                    then insertNew s4.newRunnable p else s4.newRunnable) := hq
                have hmem4 : q ∈ s4.newRunnable ∨ q = p := by
                  cases hemp : d5.deps.isEmpty with
                  | true =>
                    simp only [hemp, if_true] at hq2
                    exact (mem_insertNew _ _ _).mp hq2
                  | false =>
                    simp only [hemp, Bool.false_eq_true, if_false] at hq2
                    exact Or.inl hq2
                rcases hmem4 with hmem4 | hmem4
                · rcases dd4 q hmem4 with hmem5 | hmem5
                  · exact Or.inl hmem5
                  · exact Or.inr (le_of_lt hmem5)
                · exact Or.inr (le_of_eq (by rw [hmem4]))

/-! ## Claim C3: the assertions in `createStep` cannot fail -/

/-- C3: in the single-threaded loader (which this whole model is), with
acyclic derivation input graphs (witnessed by a rank function that strictly
decreases from a derivation to each of its inputs), the assertion
`created != isNew` in `createStep` never fails: starting from a steady
state in which every live Step of the graph has `created = true` and no
assertion has failed, any completed `createStep` call leaves the
`assertFailed` flag false -- every Step found live in the map had
`created = true` and every freshly allocated Step had `created = false`
at the moment of the check -- and it restores the steady state. -/
theorem createStep_assert_safe (fuel : Nat) (env : Env) (rank : DrvPath → Nat)
    (hAcyc : ∀ q i, i ∈ (env.drvs q).inputDrvs → rank i < rank q)
    (p : DrvPath) (rb : Option BuildID) (rs : Option DrvPath) (s : CS)
    (r : Option DrvPath) (s' : CS)
    (hSteady : ∀ q d, lookupLive s.graph q = some d → d.created = true)
    (hA : s.assertFailed = false)
    (hrun : createStep fuel env p rb rs s = some (r, s')) :
    s'.assertFailed = false ∧
    (∀ q d, lookupLive s'.graph q = some d → d.created = true) := by
  have hGood : ∀ q, liveUncreated s.graph q → rank p < rank q := by
    intro q hq
    obtain ⟨d, hd, hc⟩ := hq
    rw [hSteady q d hd] at hc
    exact absurd hc (by simp)
  obtain ⟨a1, b1, _, _⟩ :=
    createStep_sound fuel env rank hAcyc p rb rs s r s' hrun hGood
  refine ⟨a1.trans hA, ?_⟩
  intro q d hd
  cases hcv : d.created with
  | true => rfl
  | false =>
    obtain ⟨d2, hd2, hc2⟩ := b1 q ⟨d, hd, hcv⟩
    rw [hSteady q d2 hd2] at hc2
    exact absurd hc2 (by simp)

/-- Environment for the C3 witness: derivation `"a"` has one input `"b"`,
and no output path is valid yet. -/
def envC3 : Env :=
  { validPath := fun _ => false,
    drvs := fun q =>
      if q = "a" then
        { outputs := [("out", "/o/a")], inputDrvs := ["b"], platform := "x",
          env := [] }
      else if q = "b" then
        { outputs := [("out", "/o/b")], inputDrvs := [], platform := "x",
          env := [] }
      else emptyDrv,
    localPlatforms := [], cachedFailure := fun _ => false,
    supported := fun _ => true, buildOne := none, now := 100 }

/-- A rank function witnessing the acyclicity of `envC3`. -/
def rankC3 : DrvPath → Nat := fun q => if q = "a" then 1 else 0

/-- The empty (steady) expansion state for the C3 witness. -/
def csC3 : CS :=
  { graph := [], finishedDrvs := [], newSteps := [], newRunnable := [],
    assertFailed := false }

/-- The result of expanding `"a"` in the C3 witness. -/
def c3res : Option DrvPath × CS :=
  (createStep 3 envC3 "a" (some 1) none csC3).getD default

/-- Witness for C3: expanding the dependency chain `"a" → "b"` from the
empty steady state completes with the assertion flag still clear and every
live step created. -/
theorem createStep_assert_safe_witness :
    createStep 3 envC3 "a" (some 1) none csC3 = some (c3res.1, c3res.2) ∧
    c3res.2.assertFailed = false ∧
    (∀ q d, lookupLive c3res.2.graph q = some d → d.created = true) := by
  have hs : (createStep 3 envC3 "a" (some 1) none csC3).isSome = true := by
    simp [createStep, createDeps, envC3, csC3, emptyDrv, freshStep,
      lookupAssoc, lookupEntry, lookupLive, setEntry, eraseEntry, eraseAssoc,
      setAssoc, updateLive, insertNew]
  have hpair : createStep 3 envC3 "a" (some 1) none csC3 =
      some (c3res.1, c3res.2) := option_eq_some_getD _ hs
  have hAc : ∀ q i, i ∈ (envC3.drvs q).inputDrvs → rankC3 i < rankC3 q := by
    intro q i hi
    by_cases hq : q = "a"
    · subst hq
      simp [envC3] at hi
      subst hi
      simp [rankC3]
    · by_cases hq2 : q = "b"
      · subst hq2
        simp [envC3] at hi
      · simp [envC3, hq, hq2, emptyDrv] at hi
  have hmain := createStep_assert_safe 3 envC3 rankC3 hAc "a" (some 1) none
    csC3 c3res.1 c3res.2
    (by intro q d hd; simp [csC3, lookupLive, lookupEntry, lookupAssoc] at hd)
    rfl hpair
  exact ⟨hpair, hmain.1, hmain.2⟩

/-! ## Claim C5: fresh steps end up created, runnable iff no deps -/

/-- C5: when `createStep` materializes a new step for a path (the path is
not finished, has no live step yet, and not all of its outputs are valid)
and returns it, the returned step's `created` flag is true, and the path
was inserted into `newRunnable` if and only if the step's `deps` set was
empty at that moment: a step is runnable exactly when `created` is true
and `deps` is empty.  Stated in the steady state of the single-threaded
loader, for acyclic derivation input graphs. -/
theorem createStep_new_runnable (f : Nat) (env : Env) (rank : DrvPath → Nat)
    (hAcyc : ∀ q i, i ∈ (env.drvs q).inputDrvs → rank i < rank q)
    (p : DrvPath) (rb : Option BuildID) (rs : Option DrvPath) (s : CS)
    (r : Option DrvPath) (s' : CS)
    (hSteady : ∀ q d, lookupLive s.graph q = some d → d.created = true)
    (hfin : p ∉ s.finishedDrvs)
    (hlive : lookupLive s.graph p = none)
    (hinval : (env.drvs p).outputs.all (fun o => env.validPath o.2) = false)
    (hnr : p ∉ s.newRunnable)
    (h : createStep (f + 1) env p rb rs s = some (r, s')) :
    r = some p ∧
    ∃ d', lookupLive s'.graph p = some d' ∧ d'.created = true ∧
      (p ∈ s'.newRunnable ↔ d'.deps = []) := by
  simp only [createStep] at h
  rw [if_neg hfin] at h
  cases he : lookupEntry s.graph p with
  | some ent =>
    cases ent with
    | some d =>
      have hlv : lookupLive s.graph p = some d := by simp [lookupLive, he]
      rw [hlive] at hlv
      exact absurd hlv (by simp)
    | none =>
      have hg1 : ∀ q, q ≠ p →
          lookupEntry (eraseEntry s.graph p) q = lookupEntry s.graph q :=
        fun q hq => lookupEntry_eraseEntry_other _ _ _ hq
      simp only [he, hlive, Option.isNone_none, Bool.not_true,
        Bool.false_eq_true, if_false, updateLive, lookupLive_setEntry_same] at h
      simp only [hinval, Bool.false_eq_true, if_false] at h
      split at h
      · exact absurd h (by simp)
      · rename_i s4 hcd
        have hDS := createDeps_sound f env rank
          (createStep_sound f env rank hAcyc) (env.drvs p).inputDrvs p _ s4 hcd
          (by
            intro q hq
            by_cases hqp : q = p
            · exact le_of_eq (by rw [hqp])
            · obtain ⟨dq, hdq, hcq⟩ := hq
              have hdq2 : lookupLive s.graph q = some dq := by
                rw [← hdq, lookupLive_setEntry_other _ _ _ _ hqp,
                    lookupLive_setEntry_other _ _ _ _ hqp]
                all_goals unfold lookupLive
                all_goals rw [hg1 q hqp]
              rw [hSteady q dq hdq2] at hcq
              exact absurd hcq (by simp))
          (fun i hi => hAcyc p i hi)
        obtain ⟨a4, b4, c4, dd4, e4⟩ := hDS
        obtain ⟨dS, hlS, hcS⟩ := e4 _ (lookupLive_setEntry_same _ _ _)
        have hcSf : dS.created = false := by rw [hcS]; rfl
        cases hl4 : lookupLive s4.graph p with
        | none =>
          rw [hl4] at hlS
          exact absurd hlS (by simp)
        | some d5 =>
          simp only [hl4] at h
          injection h with h1
          injection h1 with h2 h3
          subst h3
          have hne4 : p ∉ s4.newRunnable := by
            intro hp4
            rcases dd4 p hp4 with hmem | hmem
            · exact hnr hmem
            · exact absurd hmem (lt_irrefl _)
          refine ⟨h2.symm, { d5 with created := true },
            lookupLive_setEntry_same _ _ _, rfl, ?_⟩
          show p ∈ (if d5.deps.isEmpty then insertNew s4.newRunnable p
              else s4.newRunnable) ↔ d5.deps = []
          constructor
          · intro hp
            cases hd : d5.deps with
            | nil => rfl
            | cons a t =>
              rw [hd] at hp
              simp only [List.isEmpty_cons, Bool.false_eq_true, if_false] at hp
              exact absurd hp hne4
          · intro hd
            rw [hd]
            simp only [List.isEmpty_nil, if_true]
            exact self_mem_insertNew _ _
  | none =>
    have hg1 : ∀ q, q ≠ p →
        lookupEntry s.graph q = lookupEntry s.graph q := fun q hq => rfl
    simp only [he, hlive, Option.isNone_none, Bool.not_true,
      Bool.false_eq_true, if_false, updateLive, lookupLive_setEntry_same] at h
    simp only [hinval, Bool.false_eq_true, if_false] at h
    split at h
    · exact absurd h (by simp)
    · rename_i s4 hcd
      have hDS := createDeps_sound f env rank
        (createStep_sound f env rank hAcyc) (env.drvs p).inputDrvs p _ s4 hcd
        (by
          intro q hq
          by_cases hqp : q = p
          · exact le_of_eq (by rw [hqp])
          · obtain ⟨dq, hdq, hcq⟩ := hq
            have hdq2 : lookupLive s.graph q = some dq := by
              rw [← hdq, lookupLive_setEntry_other _ _ _ _ hqp,
                  lookupLive_setEntry_other _ _ _ _ hqp]
              all_goals unfold lookupLive
              all_goals rw [hg1 q hqp]
            rw [hSteady q dq hdq2] at hcq
            exact absurd hcq (by simp))
        (fun i hi => hAcyc p i hi)
      obtain ⟨a4, b4, c4, dd4, e4⟩ := hDS
      obtain ⟨dS, hlS, hcS⟩ := e4 _ (lookupLive_setEntry_same _ _ _)
      have hcSf : dS.created = false := by rw [hcS]; rfl
      cases hl4 : lookupLive s4.graph p with
      | none =>
        rw [hl4] at hlS
        exact absurd hlS (by simp)
      | some d5 =>
        simp only [hl4] at h
        injection h with h1
        injection h1 with h2 h3
        subst h3
        have hne4 : p ∉ s4.newRunnable := by
          intro hp4
          rcases dd4 p hp4 with hmem | hmem
          · exact hnr hmem
          · exact absurd hmem (lt_irrefl _)
        refine ⟨h2.symm, { d5 with created := true },
          lookupLive_setEntry_same _ _ _, rfl, ?_⟩
        show p ∈ (if d5.deps.isEmpty then insertNew s4.newRunnable p
            else s4.newRunnable) ↔ d5.deps = []
        constructor
        · intro hp
          cases hd : d5.deps with
          | nil => rfl
          | cons a t =>
            rw [hd] at hp
            simp only [List.isEmpty_cons, Bool.false_eq_true, if_false] at hp
            exact absurd hp hne4
        · intro hd
          rw [hd]
          simp only [List.isEmpty_nil, if_true]
          exact self_mem_insertNew _ _

/-- Environment for the C5 witness: derivation `"a"` has one input `"b"`
and one not-yet-valid output. -/
def envC5 : Env :=
  { validPath := fun _ => false,
    drvs := fun q =>
      if q = "a" then
        { outputs := [("out", "/o/a")], inputDrvs := ["b"], platform := "x",
          env := [] }
      else if q = "b" then
        { outputs := [("out", "/o/b")], inputDrvs := [], platform := "x",
          env := [] }
      else emptyDrv,
    localPlatforms := [], cachedFailure := fun _ => false,
    supported := fun _ => true, buildOne := none, now := 100 }

/-- A rank function witnessing the acyclicity of `envC5`. -/
def rankC5 : DrvPath → Nat := fun q => if q = "a" then 1 else 0

/-- The empty (steady) expansion state for the C5 witness. -/
def csC5 : CS :=
  { graph := [], finishedDrvs := [], newSteps := [], newRunnable := [],
    assertFailed := false }

/-- The result of expanding `"a"` in the C5 witness. -/
def c5res : Option DrvPath × CS :=
  (createStep 3 envC5 "a" (some 1) none csC5).getD default

/-- Witness for C5: materializing the step for `"a"` (which depends on
`"b"`) returns it with `created = true`, and it is in `newRunnable` iff
its `deps` ended up empty. -/
theorem createStep_new_runnable_witness :
    createStep 3 envC5 "a" (some 1) none csC5 = some (c5res.1, c5res.2) ∧
    c5res.1 = some "a" ∧
    ∃ d', lookupLive c5res.2.graph "a" = some d' ∧ d'.created = true ∧
      ("a" ∈ c5res.2.newRunnable ↔ d'.deps = []) := by
  have hs : (createStep 3 envC5 "a" (some 1) none csC5).isSome = true := by
    simp [createStep, createDeps, envC5, csC5, emptyDrv, freshStep,
      lookupAssoc, lookupEntry, lookupLive, setEntry, eraseEntry, eraseAssoc,
      setAssoc, updateLive, insertNew]
  have hpair : createStep 3 envC5 "a" (some 1) none csC5 =
      some (c5res.1, c5res.2) := option_eq_some_getD _ hs
  have hAc : ∀ q i, i ∈ (envC5.drvs q).inputDrvs → rankC5 i < rankC5 q := by
    intro q i hi
    by_cases hq : q = "a"
    · subst hq
      simp [envC5] at hi
      subst hi
      simp [rankC5]
    · by_cases hq2 : q = "b"
      · subst hq2
        simp [envC5] at hi
      · simp [envC5, hq, hq2, emptyDrv] at hi
  have hmain := createStep_new_runnable 2 envC5 rankC5 hAc "a" (some 1) none
    csC5 c5res.1 c5res.2
    (by intro q d hd; simp [csC5, lookupLive, lookupEntry, lookupAssoc] at hd)
    (by simp [csC5])
    rfl
    (by simp [envC5])
    (by simp [csC5])
    hpair
  exact ⟨hpair, hmain.1, hmain.2⟩


end HydraQM
